import Mathlib

/-!
# deploy-notifier: a shallow embedding of `main.go`

The deployment aggregate of `main.go` is embedded as pure state-passing
functions.

* `time.Time` is an integer count of nanoseconds since the zero `Time`
  (so the zero value of a `time.Time` field is `0`); `time.Duration` is an
  integer count of nanoseconds in the `int64` range, and `Time.Sub`
  saturates as the library documents.
* `Duration.Seconds` computes in `float64`; the values it takes are
  modelled exactly, as `mant * 2 ^ exp` with the rounding of IEEE 754.
* Every call of `time.Now()` is a clock reading handed to the operation
  that makes it.
* The goroutine `idGenerator` together with the channel `newID` is the
  counter `Sys.nextID`: the value the next receive `<-newID` yields.
* A `*project` is the position of the record in `deployment.projects`.
* The Slack client is an explicit list of calls made by `broadcast`; the
  timestamp a `PostMessage` call hands back is an argument of `broadcast`.
* `sync.Mutex` is not represented: every operation runs atomically.
-/

namespace DeployNotifier

/-! ## Library functions used by `main.go` -/

/-- An instant, `time.Time`, in nanoseconds since the zero `Time`. -/
abbrev Time := Int

/-- A span of time, `time.Duration`, in nanoseconds. -/
abbrev Duration := Int

/-- The smallest `time.Duration`, `-1 << 63`. -/
def minDuration : Duration := -9223372036854775808

/-- The largest `time.Duration`, `1<<63 - 1`. -/
def maxDuration : Duration := 9223372036854775807

/-- The call `t.Sub(u)`: the difference `t - u`, replaced by the largest or
smallest `Duration` when it does not fit. -/
def Time.Sub (t u : Time) : Duration :=
  if t - u > maxDuration then maxDuration
  else if t - u < minDuration then minDuration
  else t - u

/-- The loop behind `ilog2`, with `fuel` bounding the number of halvings. -/
def ilog2Fuel : Nat → Nat → Nat
  | 0, _ => 0
  | fuel + 1, n => if n < 2 then 0 else ilog2Fuel fuel (n / 2) + 1

/-- The position of the leading binary digit of `n`: the largest `k` with
`2 ^ k ≤ n`, and `0` for `n = 0`. -/
def ilog2 (n : Nat) : Nat :=
  ilog2Fuel n n

/-- The integer nearest to the quotient `n / d`, the even one of the two
when the quotient lies half way between them. -/
def roundHalfEven (n d : Nat) : Nat :=
  if 2 * (n % d) < d then n / d
  else if d < 2 * (n % d) then n / d + 1
  else if (n / d) % 2 = 0 then n / d
  else n / d + 1

/-- A non-negative `float64` value, `mant * 2 ^ exp`. The exponent is not
limited: the values of `Duration.Seconds` stay between `1e-9` and `1e10`,
far from the subnormal range and from overflow. -/
structure F64 where
  mant : Nat
  exp : Int
  deriving DecidableEq

/-- The `float64` nearest to the quotient `n / d` of two naturals, with 53
significant binary digits and ties to even, the rounding of IEEE 754
arithmetic. With `k` the position of the leading digit of the quotient, the
result is a multiple of `2 ^ (k - 52)`. -/
def F64.round (n d : Nat) : F64 :=
  let e : Int := (ilog2 (n * 2 ^ (ilog2 d + 1) / d) : Int) - (ilog2 d + 1 : Nat) - 52
  { mant := roundHalfEven (n * 2 ^ (-e).toNat) (d * 2 ^ e.toNat), exp := e }

/-- The conversion `float64(n)` of a non-negative integer. -/
def F64.ofNat (n : Nat) : F64 :=
  F64.round n 1

/-- The quotient `a / b` of two `float64` values: the exact quotient,
rounded. -/
def F64.div (a b : F64) : F64 :=
  F64.round (a.mant * 2 ^ (a.exp - b.exp).toNat) (b.mant * 2 ^ (b.exp - a.exp).toNat)

/-- The sum `a + b` of two `float64` values: the exact sum, rounded. -/
def F64.add (a b : F64) : F64 :=
  F64.round
    ((a.mant * 2 ^ (a.exp - min a.exp b.exp).toNat + b.mant * 2 ^ (b.exp - min a.exp b.exp).toNat)
      * 2 ^ (min a.exp b.exp).toNat)
    (2 ^ (-(min a.exp b.exp)).toNat)

/-- The conversion `int(f)` of a non-negative `float64`: the integer part. -/
def F64.toNat (a : F64) : Nat :=
  a.mant * 2 ^ a.exp.toNat / 2 ^ (-a.exp).toNat

/-- The method `Duration.Seconds` of package `time` at a duration of `a`
nanoseconds, `a` non-negative:
`sec := d / Second; nsec := d % Second; return float64(sec) + float64(nsec)/1e9`. -/
def secondsF64 (a : Nat) : F64 :=
  F64.add (F64.ofNat (a / 1000000000))
    (F64.div (F64.ofNat (a % 1000000000)) (F64.ofNat 1000000000))

/-- The conversion `int(d.Seconds())`. The quotient and the remainder of Go
round toward zero, so `sec` and `nsec` have the sign of `d`, and rounding to
nearest is symmetric: a negative duration gives the negative of the result
at its absolute value. -/
def Duration.wholeSeconds (d : Int) : Int :=
  if d < 0 then -((secondsF64 d.natAbs).toNat : Int) else ((secondsF64 d.natAbs).toNat : Int)

/-- The string `s` with zeros put in front until it has `w` characters. -/
def zeroPad (w : Nat) (s : String) : String :=
  String.mk (List.replicate (w - s.length) (Char.ofNat 48)) ++ s

/-- The verb `%02d` of `fmt.Sprintf` at an `int`: decimal digits, padded
with zeros to width two, where a minus sign comes first and counts toward
the width. -/
def sprintf02d (n : Int) : String :=
  if n < 0 then "-" ++ zeroPad 1 (Nat.repr n.natAbs)
  else zeroPad 2 (Nat.repr n.toNat)

/-- The Unicode tables of package `unicode`, consulted by `strings.Title`
for runes above `0x7F` only. -/
structure UnicodeTables where
  /-- The function `unicode.IsLetter`. -/
  IsLetter : Char → Bool
  /-- The function `unicode.IsDigit`. -/
  IsDigit : Char → Bool
  /-- The function `unicode.IsSpace`. -/
  IsSpace : Char → Bool
  /-- The function `unicode.ToTitle`. -/
  ToTitle : Char → Char

/-- The helper `isSeparator` of package `strings`: ASCII letters, digits and
the underscore do not separate words, every other ASCII rune does; above
ASCII letters and digits do not, and spaces do. -/
def isSeparator (U : UnicodeTables) (r : Char) : Bool :=
  if r.toNat ≤ 127 then
    if 48 ≤ r.toNat ∧ r.toNat ≤ 57 then false
    else if 97 ≤ r.toNat ∧ r.toNat ≤ 122 then false
    else if 65 ≤ r.toNat ∧ r.toNat ≤ 90 then false
    else if r.toNat = 95 then false
    else true
  else if U.IsLetter r || U.IsDigit r then false
  else U.IsSpace r

/-- The function `unicode.ToTitle`: on ASCII the lower-case letters move to
upper case and nothing else changes; above ASCII the tables decide. -/
def toTitle (U : UnicodeTables) (r : Char) : Char :=
  if r.toNat ≤ 127 then
    if 97 ≤ r.toNat ∧ r.toNat ≤ 122 then Char.ofNat (r.toNat - 32) else r
  else U.ToTitle r

/-- The mapping loop of `strings.Title`: `prev` is the rune seen before. -/
def titleRunes (U : UnicodeTables) (prev : Char) : List Char → List Char
  | [] => []
  | r :: rs =>
    (if isSeparator U prev then toTitle U r else r) :: titleRunes U r rs

/-- The function `strings.Title`: the first rune of every word is mapped to
its title case. -/
def Title (U : UnicodeTables) (s : String) : String :=
  String.mk (titleRunes U (Char.ofNat 32) s.data)

/-! ## The data of `main.go` -/

/-- The struct `project`. -/
structure project where
  name : String
  status : String
  startTime : Time
  endTime : Time
  id : Int
  failed : Bool
  deriving DecidableEq

/-- The struct `deployment`, without its mutex. -/
structure deployment where
  projects : List project
  link : String
  startTime : Time
  /-- The Slack timestamp of the posted message. -/
  timestamp : String
  done : Bool
  deriving DecidableEq

def noop : String := "not deploying"
def deploying : String := "deploying"
def building : String := "building"
def succeeded : String := "succeeded"

/-- The deployment together with the state of `idGenerator`: `nextID` is the
value the next receive from `newID` yields. -/
structure Sys where
  d : deployment
  nextID : Int
  deriving DecidableEq

/-- The state `main` sets up: no projects, start time `now`, and an
`idGenerator` about to send `0`. -/
def Sys.fresh (now : Time) : Sys :=
  { d := { projects := [], link := "", startTime := now, timestamp := "", done := false },
    nextID := 0 }

/-- The search loop of `deployment.project`: the position of the first
record named `pName`. -/
def lookup (pName : String) : List project → Option Nat
  | [] => none
  | p :: ps => if p.name = pName then some 0 else (lookup pName ps).map (· + 1)

/-- The composite literal of `deployment.project`: only `name`, `id` and
`startTime` are given, the other fields have their zero values. -/
def newProject (pName : String) (id : Int) (now : Time) : project :=
  { name := pName, status := "", startTime := now, endTime := 0, id := id, failed := false }

/-- The method `deployment.project`: returns the position of the record
named `pName`, appending a new record when there is none. `now` is the
reading of `time.Now()` used for a new record. -/
def deployment.project (s : Sys) (pName : String) (now : Time) : Sys × Nat :=
  match lookup pName s.d.projects with
  | some i => (s, i)
  | none =>
    ({ d := { s.d with projects := s.d.projects ++ [newProject pName s.nextID now] },
       nextID := s.nextID + 1 },
     s.d.projects.length)

/-- An assignment through a `*project`: the record at position `i` is
replaced by its image under `f`. -/
def assign (f : project → project) : Nat → List project → List project
  | _, [] => []
  | 0, p :: ps => f p :: ps
  | i + 1, p :: ps => p :: assign f i ps

/-- The state after assigning through the pointer `i`. -/
def Sys.assign (s : Sys) (i : Nat) (f : project → project) : Sys :=
  { s with d := { s.d with projects := DeployNotifier.assign f i s.d.projects } }

/-- The method `deployment.notDeploying`. -/
def deployment.notDeploying (s : Sys) (pName : String) (now : Time) : Sys :=
  let r := deployment.project s pName now
  r.1.assign r.2 (fun p => { p with status := noop })

/-- The method `deployment.startDeploying`. -/
def deployment.startDeploying (s : Sys) (pName : String) (now : Time) : Sys :=
  let r := deployment.project s pName now
  r.1.assign r.2 (fun p => { p with status := deploying })

/-- The method `deployment.startBuilding`. -/
def deployment.startBuilding (s : Sys) (pName : String) (now : Time) : Sys :=
  let r := deployment.project s pName now
  r.1.assign r.2 (fun p => { p with status := building })

/-- The method `deployment.failedDeploying`; `now` is the reading taken
inside `project`, `now2` the one stored in `endTime`. -/
def deployment.failedDeploying (s : Sys) (pName : String) (now now2 : Time) : Sys :=
  let r := deployment.project s pName now
  r.1.assign r.2 (fun p => { p with failed := true, endTime := now2 })

/-- The method `deployment.succeededDeployment`; `now` is the reading taken
inside `project`, `now2` the one stored in `endTime`. -/
def deployment.succeededDeployment (s : Sys) (pName : String) (now now2 : Time) : Sys :=
  let r := deployment.project s pName now
  r.1.assign r.2 (fun p => { p with status := succeeded, endTime := now2 })

/-- The body of the `/done` handler before its broadcast: `d.done = true`. -/
def markDone (s : Sys) : Sys :=
  { s with d := { s.d with done := true } }

/-- A request that reaches one of the five per-project methods, with the
clock readings the method takes. -/
inductive Transition where
  | notDeploying (pName : String) (now : Time)
  | startBuilding (pName : String) (now : Time)
  | startDeploying (pName : String) (now : Time)
  | failedDeploying (pName : String) (now now2 : Time)
  | succeededDeployment (pName : String) (now now2 : Time)
  deriving DecidableEq

/-- The project name a transition refers to. -/
def Transition.pName : Transition → String
  | .notDeploying n _ => n
  | .startBuilding n _ => n
  | .startDeploying n _ => n
  | .failedDeploying n _ _ => n
  | .succeededDeployment n _ _ => n

/-- The method call a transition stands for. -/
def Transition.apply (s : Sys) : Transition → Sys
  | .notDeploying n t => deployment.notDeploying s n t
  | .startBuilding n t => deployment.startBuilding s n t
  | .startDeploying n t => deployment.startDeploying s n t
  | .failedDeploying n t t2 => deployment.failedDeploying s n t t2
  | .succeededDeployment n t t2 => deployment.succeededDeployment s n t t2

/-- A sequence of transitions, applied from left to right. -/
def runTransitions (s : Sys) (ts : List Transition) : Sys :=
  ts.foldl Transition.apply s

/-! ## Rendering and broadcasting -/

def failedColor : String := "#ff4500"

/-- The map `colorMap`; a key that is absent yields the empty string. -/
def colorMap (k : String) : String :=
  if k = noop then "#aaa"
  else if k = deploying then "#ffa500"
  else if k = building then "#ffa500"
  else if k = succeeded then "#0b0"
  else ""

/-- The function `formatDuration`. -/
def formatDuration (d : Duration) : String :=
  let seconds := Duration.wholeSeconds d
  sprintf02d (Int.tdiv seconds 60) ++ ":" ++ sprintf02d (Int.tmod seconds 60)

/-- The switch of `project.statusString`: the text chosen by `p.status`;
`now` is the reading of `time.Now()`. -/
def project.statusText (p : project) (now : Time) : String :=
  if p.status = noop then " is not deploying (no changes)"
  else if p.status = building then
    " building (" ++ formatDuration (Time.Sub now p.startTime) ++ ")"
  else if p.status = deploying then
    " deploying (" ++ formatDuration (Time.Sub now p.startTime) ++ ")"
  else if p.status = succeeded then
    " succeeded (took " ++ formatDuration (Time.Sub p.endTime p.startTime) ++ ")"
  else ""

/-- The method `project.statusString`. -/
def project.statusString (U : UnicodeTables) (p : project) (now : Time) : String :=
  let name := Title U p.name
  let status := p.statusText now
  if p.failed then name ++ " FAILED " ++ status else name ++ status

/-- The method `project.success`. -/
def project.success (p : project) : Bool :=
  !p.failed && (p.status == succeeded || p.status == noop)

/-- The fields of `slack.Attachment` that `broadcast` fills in. -/
structure Attachment where
  Color : String
  Text : String
  ID : Int
  deriving DecidableEq

/-- The attachment `broadcast` builds for one project. -/
def project.block (U : UnicodeTables) (p : project) (now : Time) : Attachment :=
  { Color := if p.failed then failedColor else colorMap p.status,
    Text := p.statusString U now,
    ID := p.id }

/-- The loop of `broadcast` over `d.projects` from position `i` on: the
attachments and the final value of `success`. The project at position `j`
reads the clock as `clock j`. -/
def broadcastLoop (U : UnicodeTables) (clock : Nat → Time) :
    Nat → List project → Bool → List Attachment × Bool
  | _, [], success => ([], success)
  | i, p :: ps, success =>
    let r := broadcastLoop U clock (i + 1) ps (p.success && success)
    (p.block U (clock i) :: r.1, r.2)

/-- The attachment `broadcast` appends when `d.done` holds. -/
def summaryBlock (d : deployment) (success : Bool) (now : Time) : Attachment :=
  let duration := Time.Sub now d.startTime
  if success then
    { Color := colorMap succeeded,
      Text := "Succeeded (took " ++ formatDuration duration ++ ")", ID := 42 }
  else
    { Color := failedColor,
      Text := "Failed (took " ++ formatDuration duration ++ ")", ID := 42 }

/-- The slice `blocks` that `broadcast` builds once it has passed the test
for an empty project list. The summary reads the clock as
`clock d.projects.length`. -/
def deployment.blocks (U : UnicodeTables) (d : deployment) (clock : Nat → Time) :
    List Attachment :=
  let r := broadcastLoop U clock 0 d.projects true
  if d.done then r.1 ++ [summaryBlock d r.2 (clock d.projects.length)] else r.1

/-- The environment variables `broadcast` reads. -/
structure Env where
  SLACK_TOKEN : String
  CHANNEL_ID : String
  SLACK_HEADER : String

/-- A call `broadcast` makes on the Slack client. -/
inductive SlackCall where
  | PostMessage (token channelID header : String) (blocks : List Attachment)
  | UpdateMessage (token channelID timestamp header : String) (blocks : List Attachment)
  deriving DecidableEq

/-- The method `deployment.broadcast`: the deployment afterwards and the
calls made on the Slack client. `s2` is the timestamp `PostMessage` hands
back if it is called. -/
def deployment.broadcast (U : UnicodeTables) (env : Env) (d : deployment)
    (clock : Nat → Time) (s2 : String) : deployment × List SlackCall :=
  if d.projects.length = 0 then (d, [])
  else
    let blocks := d.blocks U clock
    if d.timestamp = "" then
      ({ d with timestamp := s2 },
       [SlackCall.PostMessage env.SLACK_TOKEN env.CHANNEL_ID env.SLACK_HEADER blocks])
    else
      (d, [SlackCall.UpdateMessage env.SLACK_TOKEN env.CHANNEL_ID d.timestamp
            env.SLACK_HEADER blocks])

/-! ## Notions used in the statements -/

/-- One step of `firstRefs`: a name is appended when it has not been seen
before. -/
def noteName (seen : List String) (n : String) : List String :=
  if n ∈ seen then seen else seen ++ [n]

/-- The names of a transition sequence in order of first reference. -/
def firstRefs (names : List String) : List String :=
  names.foldl noteName []

/-- The assignments a transition makes through the pointer it obtained. -/
def Transition.update : Transition → project → project
  | .notDeploying _ _ => fun p => { p with status := noop }
  | .startBuilding _ _ => fun p => { p with status := building }
  | .startDeploying _ _ => fun p => { p with status := deploying }
  | .failedDeploying _ _ t2 => fun p => { p with failed := true, endTime := t2 }
  | .succeededDeployment _ _ t2 => fun p => { p with status := succeeded, endTime := t2 }

/-- The clock reading a transition passes to `deployment.project`. -/
def Transition.now : Transition → Time
  | .notDeploying _ t => t
  | .startBuilding _ t => t
  | .startDeploying _ t => t
  | .failedDeploying _ t _ => t
  | .succeededDeployment _ t _ => t

/-- The ids issued so far are `0, 1, ...` in list order and the generator is
about to send the next one. -/
def IdsInOrder (s : Sys) : Prop :=
  s.d.projects.map project.id = (List.range s.d.projects.length).map Int.ofNat ∧
    s.nextID = Int.ofNat s.d.projects.length

/-- What can happen to the deployment: a per-project transition, the
assignment `d.done = true` of the `/done` handler, or a call of `broadcast`
(from a handler or from `periodicBroadcast`) with the clock readings it
takes and the timestamp `PostMessage` hands back if it is called. -/
inductive Event where
  | transition (t : Transition)
  | markDone
  | broadcast (clock : Nat → Time) (s2 : String)

/-- One event: the state afterwards and the Slack calls made. -/
def Event.step (U : UnicodeTables) (env : Env) (s : Sys) : Event → Sys × List SlackCall
  | .transition t => (t.apply s, [])
  | .markDone => (DeployNotifier.markDone s, [])
  | .broadcast clock s2 =>
    ({ s with d := (s.d.broadcast U env clock s2).1 }, (s.d.broadcast U env clock s2).2)

/-- A sequence of events from left to right: the final state and all Slack
calls in the order they were made. -/
def runEvents (U : UnicodeTables) (env : Env) : Sys → List Event → Sys × List SlackCall
  | s, [] => (s, [])
  | s, e :: es =>
    ((runEvents U env (e.step U env s).1 es).1,
     (e.step U env s).2 ++ (runEvents U env (e.step U env s).1 es).2)

/-- The record for a name: the first record of the list with that name, the
one `deployment.project` returns. -/
def record (pName : String) : List project → Option project
  | [] => none
  | p :: ps => if p.name = pName then some p else record pName ps

/-- The list after `deployment.project` for `pName` followed by the
assignment `f` through the returned pointer, written as one pass: the first
record named `pName` is updated, and `f np` is appended if there is none. -/
def updateOrAppend (f : project → project) (pName : String) (np : project) :
    List project → List project
  | [] => [f np]
  | p :: ps => if p.name = pName then f p :: ps else p :: updateOrAppend f pName np ps

/-- Unicode tables with nothing above ASCII: no letters, digits or spaces,
and every rune its own title case. -/
def asciiTables : UnicodeTables :=
  { IsLetter := fun _ => false, IsDigit := fun _ => false, IsSpace := fun _ => false,
    ToTitle := fun r => r }

/-- The attachments a Slack call carries. -/
def SlackCall.blocks : SlackCall → List Attachment
  | .PostMessage _ _ _ blocks => blocks
  | .UpdateMessage _ _ _ _ blocks => blocks

/-- The decimal numeral of `n`, with a zero in front when it has one digit:
zero-padded to at least two digits. -/
def twoDigits (n : Nat) : String :=
  if n < 10 then "0" ++ Nat.repr n else Nat.repr n

/-- The record `deployment.project` returns for `pName`: the existing one,
or the new record it appends. -/
def recordOrNew (s : Sys) (pName : String) (now : Time) : project :=
  (record pName s.d.projects).getD (newProject pName s.nextID now)

/-- The status of a record is one of the four constants, or it is unset on a
record that has failed. -/
def StageSetOrFailed (p : project) : Prop :=
  p.status = noop ∨ p.status = building ∨ p.status = deploying ∨ p.status = succeeded ∨
    (p.status = "" ∧ p.failed = true)

/-- Whether an event is a call of `broadcast`. -/
def Event.isBroadcast : Event → Bool
  | .broadcast _ _ => true
  | _ => false

/-! ## The lock discipline of `main.go`

The order in which each method takes `d.lock`, releases it and touches the
shared state, read off the statements of `main.go`. The deferred `Unlock`
of `project` and of `broadcast` runs when the method returns. -/

/-- The shared state of a deployment. -/
inductive Shared where
  /-- The slice `d.projects`. -/
  | projects
  /-- A field of a record the slice points to. -/
  | recordField
  /-- The flag `d.done`. -/
  | done
  /-- The field `d.timestamp`. -/
  | timestamp
  /-- The field `d.startTime`. -/
  | startTime
  deriving DecidableEq

/-- One step of a method with respect to the lock and the shared state. -/
inductive Act where
  | lock
  | unlock
  | read (x : Shared)
  | write (x : Shared)
  deriving DecidableEq

/-- The steps of `deployment.project`; `found` tells whether the loop
returns a record. -/
def Act.project (found : Bool) : List Act :=
  [Act.lock, Act.read Shared.projects, Act.read Shared.recordField] ++
    (if found then [] else [Act.read Shared.projects, Act.write Shared.projects]) ++
    [Act.unlock]

/-- The steps of `notDeploying`, `startDeploying` and `startBuilding`: the
call of `project`, then the assignment to `p.status`. -/
def Act.setStatus (found : Bool) : List Act :=
  Act.project found ++ [Act.write Shared.recordField]

/-- The steps of `failedDeploying` and `succeededDeployment`: the call of
`project`, then the two assignments through `p`. -/
def Act.setTerminal (found : Bool) : List Act :=
  Act.project found ++ [Act.write Shared.recordField, Act.write Shared.recordField]

/-- The steps of `deployment.broadcast`, by whether there are no projects,
whether `d.done` holds and whether `d.timestamp` is empty. -/
def Act.broadcast (noProjects done noTimestamp : Bool) : List Act :=
  [Act.lock, Act.read Shared.projects] ++
    (if noProjects then []
     else
      [Act.read Shared.projects, Act.read Shared.recordField, Act.read Shared.done] ++
        (if done then [Act.read Shared.startTime] else []) ++
        [Act.read Shared.timestamp] ++
        (if noTimestamp then [Act.write Shared.timestamp] else [])) ++
    [Act.unlock]

/-- The steps of one round of the loop of `periodicBroadcast` after the
tick: the test of `d.done`, then `broadcast` unless it held. -/
def Act.periodicTick (noProjects done noTimestamp : Bool) : List Act :=
  [Act.read Shared.done] ++ (if done then [] else Act.broadcast noProjects done noTimestamp)

/-- The steps of the `/done` handler: the assignment `d.done = true`, then
`broadcast`. -/
def Act.doneHandler (noProjects noTimestamp : Bool) : List Act :=
  [Act.write Shared.done] ++ Act.broadcast noProjects true noTimestamp

/-- Whether every read and write of a step sequence happens while the lock
is held; `held` tells whether it is held at the start. -/
def lockHeldAtEveryAccess (held : Bool) : List Act → Bool
  | [] => true
  | Act.lock :: as => lockHeldAtEveryAccess true as
  | Act.unlock :: as => lockHeldAtEveryAccess false as
  | Act.read _ :: as => held && lockHeldAtEveryAccess held as
  | Act.write _ :: as => held && lockHeldAtEveryAccess held as

/-! ## The ticker loop -/

/-- One tick of the ticker of `periodicBroadcast`: what the handlers did
since the tick before, and the clock readings and the `PostMessage` answer
for the broadcast made at this tick, if one is made. -/
structure Tick where
  before : List Event
  clock : Nat → Time
  s2 : String

/-- What happens at one tick: the value of `d.done` at the tick, and the
Slack calls of the broadcast `periodicBroadcast` makes, `none` when it makes
no broadcast. -/
structure TickLog where
  done : Bool
  broadcast : Option (List SlackCall)

/-- The method `deployment.periodicBroadcast` over a sequence of ticks.
`running` tells whether the loop has not returned yet: at a tick the loop
tests `d.done`, returns if it holds and calls `broadcast` otherwise; once it
has returned, ticks pass without it. -/
def deployment.periodicBroadcast (U : UnicodeTables) (env : Env) :
    Bool → Sys → List Tick → List TickLog
  | _, _, [] => []
  | running, s, t :: ts =>
    let s1 := (runEvents U env s t.before).1
    if running then
      if s1.d.done then
        { done := true, broadcast := none } ::
          deployment.periodicBroadcast U env false s1 ts
      else
        { done := false, broadcast := some (s1.d.broadcast U env t.clock t.s2).2 } ::
          deployment.periodicBroadcast U env true
            { s1 with d := (s1.d.broadcast U env t.clock t.s2).1 } ts
    else
      { done := s1.d.done, broadcast := none } ::
        deployment.periodicBroadcast U env false s1 ts

/-- The value of a `float64`, as a rational number. -/
def F64.val (a : F64) : ℚ :=
  (a.mant : ℚ) * (2 : ℚ) ^ a.exp

/-! ## Theorems -/

/-! ### Records and ids -/

theorem Transition.apply_eq (s : Sys) (t : Transition) :
    t.apply s =
      (deployment.project s t.pName t.now).1.assign
        (deployment.project s t.pName t.now).2 t.update := by
  cases t <;> rfl

theorem lookup_eq_none {n : String} {ps : List project} :
    lookup n ps = none ↔ n ∉ ps.map project.name := by
  induction ps with
  | nil => simp [lookup]
  | cons p ps ih =>
    by_cases h : p.name = n
    · simp [lookup, h]
    · simp [lookup, h, ih, Ne.symm h]

theorem lookup_eq_some {n : String} {ps : List project} {i : Nat}
    (h : lookup n ps = some i) : n ∈ ps.map project.name ∧ i < ps.length := by
  induction ps generalizing i with
  | nil => simp [lookup] at h
  | cons p ps ih =>
    by_cases hp : p.name = n
    · simp [lookup, hp] at h
      subst h
      simp [hp]
    · simp [lookup, hp] at h
      obtain ⟨j, hj, rfl⟩ := h
      have := ih hj
      simp at this ⊢
      exact ⟨Or.inr this.1, this.2⟩

theorem length_assign (f : project → project) (i : Nat) (ps : List project) :
    (assign f i ps).length = ps.length := by
  induction ps generalizing i with
  | nil => simp [assign]
  | cons p ps ih => cases i <;> simp [assign, ih]

theorem map_assign {β : Type} (g : project → β) (f : project → project)
    (hf : ∀ p, g (f p) = g p) (i : Nat) (ps : List project) :
    (assign f i ps).map g = ps.map g := by
  induction ps generalizing i with
  | nil => simp [assign]
  | cons p ps ih => cases i <;> simp [assign, ih, hf]

theorem Transition.update_name (t : Transition) (p : project) :
    (t.update p).name = p.name := by cases t <;> rfl

theorem Transition.update_id (t : Transition) (p : project) :
    (t.update p).id = p.id := by cases t <;> rfl

theorem Transition.update_startTime (t : Transition) (p : project) :
    (t.update p).startTime = p.startTime := by cases t <;> rfl

/-- The names after a transition: unchanged if the name is known, extended by
the name otherwise. -/
theorem names_apply (s : Sys) (t : Transition) :
    (t.apply s).d.projects.map project.name =
      if t.pName ∈ s.d.projects.map project.name then s.d.projects.map project.name
      else s.d.projects.map project.name ++ [t.pName] := by
  rw [Transition.apply_eq]
  unfold deployment.project Sys.assign
  cases h : lookup t.pName s.d.projects with
  | some i =>
    have := (lookup_eq_some h).1
    simp only [this, if_true]
    exact map_assign _ _ t.update_name _ _
  | none =>
    have := lookup_eq_none.1 h
    simp only [this, if_false]
    rw [map_assign _ _ t.update_name]
    simp [newProject]

/-- The ids after a transition, and the generator state. -/
theorem ids_apply (s : Sys) (t : Transition) :
    ((t.apply s).d.projects.map project.id, (t.apply s).nextID) =
      if t.pName ∈ s.d.projects.map project.name then (s.d.projects.map project.id, s.nextID)
      else (s.d.projects.map project.id ++ [s.nextID], s.nextID + 1) := by
  rw [Transition.apply_eq]
  unfold deployment.project Sys.assign
  cases h : lookup t.pName s.d.projects with
  | some i =>
    have := (lookup_eq_some h).1
    simp only [this, if_true]
    rw [map_assign _ _ t.update_id]
  | none =>
    have := lookup_eq_none.1 h
    simp only [this, if_false]
    rw [map_assign _ _ t.update_id]
    simp [newProject]

theorem firstRefs_eq (names : List String) : firstRefs names = names.foldl noteName [] := rfl

theorem foldl_noteName_nodup (names seen : List String) (h : seen.Nodup) :
    (names.foldl noteName seen).Nodup := by
  induction names generalizing seen with
  | nil => simpa using h
  | cons n ns ih =>
    simp only [List.foldl_cons]
    apply ih
    unfold noteName
    split
    · exact h
    · rename_i hn
      exact List.Nodup.append h (by simp) (by simpa using hn)

theorem mem_foldl_noteName (names seen : List String) (x : String) :
    x ∈ names.foldl noteName seen ↔ x ∈ seen ∨ x ∈ names := by
  induction names generalizing seen with
  | nil => simp
  | cons n ns ih =>
    simp only [List.foldl_cons, ih, List.mem_cons]
    unfold noteName
    split
    · rename_i hn
      constructor
      · rintro (h | h)
        · exact Or.inl h
        · exact Or.inr (Or.inr h)
      · rintro (h | h | h)
        · exact Or.inl h
        · exact Or.inl (h ▸ hn)
        · exact Or.inr h
    · simp only [List.mem_append, List.mem_singleton]
      tauto

theorem length_firstRefs (names : List String) :
    (firstRefs names).length = names.toFinset.card := by
  rw [firstRefs_eq,
    ← List.toFinset_card_of_nodup (foldl_noteName_nodup names [] List.nodup_nil)]
  congr 1
  ext x
  simp [mem_foldl_noteName]

theorem names_run (s : Sys) (ts : List Transition) :
    (runTransitions s ts).d.projects.map project.name =
      (ts.map Transition.pName).foldl noteName (s.d.projects.map project.name) := by
  induction ts generalizing s with
  | nil => rfl
  | cons t ts ih =>
    simp only [runTransitions, List.foldl_cons, List.map_cons] at ih ⊢
    rw [ih, names_apply]
    rfl

theorem IdsInOrder.apply {s : Sys} (h : IdsInOrder s) (t : Transition) :
    IdsInOrder (t.apply s) := by
  have hn := names_apply s t
  have hi := ids_apply s t
  have hl : (t.apply s).d.projects.length =
      ((t.apply s).d.projects.map project.name).length := by simp
  unfold IdsInOrder
  rw [hl, hn]
  by_cases hm : t.pName ∈ s.d.projects.map project.name
  · simp only [hm, if_true] at hi ⊢
    have h1 := congrArg Prod.fst hi
    have h2 := congrArg Prod.snd hi
    simp only at h1 h2
    rw [h1, h2, List.length_map]
    exact h
  · simp only [hm, if_false] at hi ⊢
    have h1 := congrArg Prod.fst hi
    have h2 := congrArg Prod.snd hi
    simp only at h1 h2
    rw [h1, h2, h.1, h.2]
    simp [List.range_succ]

theorem IdsInOrder.run {s : Sys} (h : IdsInOrder s) (ts : List Transition) :
    IdsInOrder (runTransitions s ts) := by
  induction ts generalizing s with
  | nil => exact h
  | cons t ts ih => exact ih (h.apply t)

theorem IdsInOrder.fresh (now : Time) : IdsInOrder (Sys.fresh now) := by
  simp [IdsInOrder, Sys.fresh]

theorem pairwise_lt_range_int (n : Nat) :
    ((List.range n).map Int.ofNat).Pairwise (· < ·) := by
  rw [List.pairwise_map]
  exact (List.pairwise_lt_range n).imp (fun h => by simpa using h)

/-- C1: a sequence of per-project transitions applied to a fresh deployment
yields exactly one record per distinct name referenced, in order of first
reference, and the ids are 0, 1, 2, ... along the list, hence pairwise
distinct and strictly increasing. -/
theorem C1_one_record_per_name_ids_increasing (now : Time) (ts : List Transition) :
    (runTransitions (Sys.fresh now) ts).d.projects.length
        = (ts.map Transition.pName).toFinset.card ∧
      (runTransitions (Sys.fresh now) ts).d.projects.map project.name
        = firstRefs (ts.map Transition.pName) ∧
      ((runTransitions (Sys.fresh now) ts).d.projects.map project.name).Nodup ∧
      (∀ n, n ∈ (runTransitions (Sys.fresh now) ts).d.projects.map project.name
        ↔ n ∈ ts.map Transition.pName) ∧
      (runTransitions (Sys.fresh now) ts).d.projects.map project.id
        = (List.range (ts.map Transition.pName).toFinset.card).map Int.ofNat ∧
      ((runTransitions (Sys.fresh now) ts).d.projects.map project.id).Pairwise (· < ·) ∧
      ((runTransitions (Sys.fresh now) ts).d.projects.map project.id).Nodup := by
  have hn : (runTransitions (Sys.fresh now) ts).d.projects.map project.name
      = firstRefs (ts.map Transition.pName) := by
    rw [names_run]; rfl
  have hlen : (runTransitions (Sys.fresh now) ts).d.projects.length
      = (ts.map Transition.pName).toFinset.card := by
    rw [← length_firstRefs, ← hn, List.length_map]
  have hid := ((IdsInOrder.fresh now).run ts).1
  rw [hlen] at hid
  have hpw : ((runTransitions (Sys.fresh now) ts).d.projects.map project.id).Pairwise
      (· < ·) := by
    rw [hid]; exact pairwise_lt_range_int _
  refine ⟨hlen, hn, ?_, ?_, hid, hpw, ?_⟩
  · rw [hn]; exact foldl_noteName_nodup _ _ List.nodup_nil
  · intro n
    rw [hn, firstRefs_eq, mem_foldl_noteName]
    simp
  · exact hpw.imp (fun h => ne_of_lt h)


/-! ### Transitions on an existing record -/

theorem assign_lookup (f : project → project) (n : String) (np : project)
    (ps : List project) :
    (match lookup n ps with
      | some i => assign f i ps
      | none => assign f ps.length (ps ++ [np])) = updateOrAppend f n np ps := by
  induction ps with
  | nil => simp [lookup, assign, updateOrAppend]
  | cons p ps ih =>
    by_cases h : p.name = n
    · simp [lookup, h, assign, updateOrAppend]
    · cases hl : lookup n ps with
      | some i =>
        rw [hl] at ih
        simp only [lookup, h, if_false, hl, Option.map_some', updateOrAppend, assign]
        simpa using ih
      | none =>
        rw [hl] at ih
        simp only [lookup, h, if_false, hl, Option.map_none', updateOrAppend,
          List.length_cons, List.cons_append, assign]
        simpa using ih

/-- The project list after a transition, in one pass. -/
theorem projects_apply (s : Sys) (t : Transition) :
    (t.apply s).d.projects =
      updateOrAppend t.update t.pName (newProject t.pName s.nextID t.now) s.d.projects := by
  rw [Transition.apply_eq, ← assign_lookup]
  unfold deployment.project Sys.assign
  cases lookup t.pName s.d.projects <;> rfl

theorem length_updateOrAppend_of_record {f : project → project} {n : String} {np p : project}
    {ps : List project} (h : record n ps = some p) :
    (updateOrAppend f n np ps).length = ps.length := by
  induction ps with
  | nil => simp [record] at h
  | cons q qs ih =>
    by_cases hq : q.name = n
    · simp [updateOrAppend, hq]
    · simp only [record, hq, if_false] at h
      simp [updateOrAppend, hq, ih h]

theorem record_updateOrAppend_same {f : project → project} {n : String} {np p : project}
    {ps : List project} (hf : ∀ q, (f q).name = q.name) (h : record n ps = some p) :
    record n (updateOrAppend f n np ps) = some (f p) := by
  induction ps with
  | nil => simp [record] at h
  | cons q qs ih =>
    by_cases hq : q.name = n
    · simp only [record, hq, if_true, Option.some.injEq] at h
      subst h
      simp [updateOrAppend, hq, record, hf]
    · simp only [record, hq, if_false] at h
      simp [updateOrAppend, hq, record, ih h]

theorem record_updateOrAppend_other {f : project → project} {n m : String} (np : project)
    (ps : List project) (hf : ∀ q, (f q).name = q.name) (hnp : np.name = n) (hm : m ≠ n) :
    record m (updateOrAppend f n np ps) = record m ps := by
  induction ps with
  | nil => simp [updateOrAppend, record, hf, hnp, Ne.symm hm]
  | cons q qs ih =>
    by_cases hq : q.name = n
    · have : ¬ q.name = m := fun h => hm (h ▸ hq)
      simp [updateOrAppend, hq, record, hf, this, Ne.symm hm]
    · by_cases hqm : q.name = m
      · simp [updateOrAppend, record, hqm, hm]
      · simp [updateOrAppend, hq, record, hqm, ih]

theorem Transition.update_failed (t : Transition) (p : project) (h : p.failed = true) :
    (t.update p).failed = true := by cases t <;> simp [Transition.update, h]

/-- C2: a transition on a name that already has a record leaves that
record's id, startTime and name as they are, and the project list keeps its
length. -/
theorem C2_existing_record_keeps_id_startTime_name (s : Sys) (t : Transition) (p : project)
    (h : record t.pName s.d.projects = some p) :
    (t.apply s).d.projects.length = s.d.projects.length ∧
      ∃ q, record t.pName (t.apply s).d.projects = some q ∧
        q.id = p.id ∧ q.startTime = p.startTime ∧ q.name = p.name := by
  rw [projects_apply]
  refine ⟨length_updateOrAppend_of_record h, t.update p,
    record_updateOrAppend_same t.update_name h, t.update_id p, t.update_startTime p,
    t.update_name p⟩

theorem C2_existing_record_keeps_id_startTime_name_witness :
    record (Transition.failedDeploying "api" 7 8).pName
        [newProject "web" 0 1, newProject "api" 1 2] = some (newProject "api" 1 2) ∧
      ((Transition.failedDeploying "api" 7 8).apply
          ⟨⟨[newProject "web" 0 1, newProject "api" 1 2], "", 0, "", false⟩, 2⟩).d.projects.length
        = 2 ∧
      ∃ q, record "api" ((Transition.failedDeploying "api" 7 8).apply
          ⟨⟨[newProject "web" 0 1, newProject "api" 1 2], "", 0, "", false⟩, 2⟩).d.projects
            = some q ∧
        q.id = 1 ∧ q.startTime = 2 ∧ q.name = "api" :=
  ⟨by decide,
   C2_existing_record_keeps_id_startTime_name
    ⟨⟨[newProject "web" 0 1, newProject "api" 1 2], "", 0, "", false⟩, 2⟩
    (Transition.failedDeploying "api" 7 8) (newProject "api" 1 2) (by decide)⟩

/-! ### The failure flag -/

theorem broadcast_projects (U : UnicodeTables) (env : Env) (d : deployment)
    (clock : Nat → Time) (s2 : String) :
    (d.broadcast U env clock s2).1.projects = d.projects := by
  unfold deployment.broadcast
  split
  · rfl
  · split <;> rfl

theorem record_failed_step (U : UnicodeTables) (env : Env) (s : Sys) (n : String)
    (p : project) (e : Event) (h : record n s.d.projects = some p) (hf : p.failed = true) :
    ∃ q, record n (e.step U env s).1.d.projects = some q ∧ q.failed = true := by
  cases e with
  | transition t =>
    simp only [Event.step, projects_apply]
    by_cases ht : t.pName = n
    · subst ht
      exact ⟨t.update p, record_updateOrAppend_same t.update_name h, t.update_failed p hf⟩
    · have hnp : (newProject t.pName s.nextID t.now).name = t.pName := rfl
      rw [record_updateOrAppend_other (newProject t.pName s.nextID t.now) s.d.projects
        t.update_name hnp (Ne.symm ht)]
      exact ⟨p, h, hf⟩
  | markDone => exact ⟨p, h, hf⟩
  | broadcast clock s2 =>
    simp only [Event.step, broadcast_projects]
    exact ⟨p, h, hf⟩

/-- C3: once the record for a name has failed = true, it still has
failed = true after any sequence of per-project transitions, markDone and
broadcasts. -/
theorem C3_failed_is_monotonic (U : UnicodeTables) (env : Env) (s : Sys) (n : String)
    (p : project) (es : List Event)
    (h : record n s.d.projects = some p) (hf : p.failed = true) :
    ∃ q, record n (runEvents U env s es).1.d.projects = some q ∧ q.failed = true := by
  induction es generalizing s p with
  | nil => exact ⟨p, h, hf⟩
  | cons e es ih =>
    obtain ⟨q, hq, hqf⟩ := record_failed_step U env s n p e h hf
    exact ih (e.step U env s).1 q hq hqf

theorem C3_failed_is_monotonic_witness :
    ∃ q, record "web"
        (runEvents ⟨fun _ => false, fun _ => false, fun _ => false, id⟩ ⟨"", "", ""⟩
          ⟨⟨[{ newProject "web" 0 1 with failed := true }], "", 0, "", false⟩, 1⟩
          [Event.transition (.succeededDeployment "web" 2 3), Event.markDone,
            Event.transition (.startBuilding "web" 4)]).1.d.projects = some q ∧
      q.failed = true :=
  C3_failed_is_monotonic _ _ _ "web" { newProject "web" 0 1 with failed := true } _
    (by decide) (by decide)

/-! ### Publishing once, updating afterwards -/

theorem projects_ne_nil_step (U : UnicodeTables) (env : Env) (s : Sys) (e : Event)
    (h : s.d.projects ≠ []) : (e.step U env s).1.d.projects ≠ [] := by
  cases e with
  | transition t =>
    simp only [Event.step, projects_apply]
    cases hps : s.d.projects with
    | nil => exact absurd hps h
    | cons p ps =>
      unfold updateOrAppend
      split <;> simp
  | markDone => exact h
  | broadcast clock s2 =>
    simp only [Event.step, broadcast_projects]
    exact h

theorem timestamp_apply (s : Sys) (t : Transition) :
    (t.apply s).d.timestamp = s.d.timestamp := by
  rw [Transition.apply_eq]
  unfold deployment.project Sys.assign
  cases lookup t.pName s.d.projects <;> rfl

theorem broadcast_of_timestamp (U : UnicodeTables) (env : Env) (d : deployment)
    (clock : Nat → Time) (s2 : String) (hp : d.projects ≠ []) (ht : d.timestamp ≠ "") :
    d.broadcast U env clock s2 =
      (d, [SlackCall.UpdateMessage env.SLACK_TOKEN env.CHANNEL_ID d.timestamp
            env.SLACK_HEADER (d.blocks U clock)]) := by
  unfold deployment.broadcast
  have : d.projects.length ≠ 0 := by simpa using hp
  simp [this, ht]

theorem broadcast_of_no_timestamp (U : UnicodeTables) (env : Env) (d : deployment)
    (clock : Nat → Time) (s2 : String) (hp : d.projects ≠ []) (ht : d.timestamp = "") :
    d.broadcast U env clock s2 =
      ({ d with timestamp := s2 },
        [SlackCall.PostMessage env.SLACK_TOKEN env.CHANNEL_ID env.SLACK_HEADER
          (d.blocks U clock)]) := by
  unfold deployment.broadcast
  have : d.projects.length ≠ 0 := by simpa using hp
  simp [this, ht]

theorem timestamp_step (U : UnicodeTables) (env : Env) (s : Sys) (e : Event)
    (hp : s.d.projects ≠ []) (ht : s.d.timestamp ≠ "") :
    (e.step U env s).1.d.timestamp = s.d.timestamp := by
  cases e with
  | transition t => exact timestamp_apply s t
  | markDone => rfl
  | broadcast clock s2 =>
    simp only [Event.step, broadcast_of_timestamp U env s.d clock s2 hp ht]

theorem timestamp_runEvents (U : UnicodeTables) (env : Env) (s : Sys) (es : List Event)
    (hp : s.d.projects ≠ []) (ht : s.d.timestamp ≠ "") :
    (runEvents U env s es).1.d.projects ≠ [] ∧
      (runEvents U env s es).1.d.timestamp = s.d.timestamp := by
  induction es generalizing s with
  | nil => exact ⟨hp, rfl⟩
  | cons e es ih =>
    have hp1 := projects_ne_nil_step U env s e hp
    have ht1 := timestamp_step U env s e hp ht
    have := ih (e.step U env s).1 hp1 (ht1 ▸ ht)
    exact ⟨this.1, this.2.trans ht1⟩

/-- C4, against the claim as stated: when the first publish hands back the
empty timestamp, as a failed `PostMessage` does, the next broadcast publishes
a second time instead of updating. -/
theorem C4_counterexample_second_publish :
    (deployment.broadcast asciiTables ⟨"tok", "chan", "hdr"⟩
        ⟨[newProject "api" 0 0], "", 0, "", false⟩ (fun _ => 0) "").2
      = [SlackCall.PostMessage "tok" "chan" "hdr" [⟨"", "Api", 0⟩]] ∧
    (deployment.broadcast asciiTables ⟨"tok", "chan", "hdr"⟩
        (deployment.broadcast asciiTables ⟨"tok", "chan", "hdr"⟩
          ⟨[newProject "api" 0 0], "", 0, "", false⟩ (fun _ => 0) "").1
        (fun _ => 0) "1700000000.000100").2
      = [SlackCall.PostMessage "tok" "chan" "hdr" [⟨"", "Api", 0⟩]] := by
  constructor <;> rfl

/-- C4, amended: from a deployment with at least one project and no stored
timestamp, the first broadcast makes exactly one `PostMessage` call and
stores the timestamp handed back; if that timestamp is not empty, then
after any further events every broadcast makes exactly one `UpdateMessage`
call with that timestamp, makes no `PostMessage` call, and leaves the
stored timestamp as it is. -/
theorem C4_publish_once_then_update (U : UnicodeTables) (env : Env) (s : Sys)
    (clock : Nat → Time) (s2 : String) (hp : s.d.projects ≠ []) (ht : s.d.timestamp = "")
    (h2 : s2 ≠ "") :
    (s.d.broadcast U env clock s2).2 =
        [SlackCall.PostMessage env.SLACK_TOKEN env.CHANNEL_ID env.SLACK_HEADER
          (s.d.blocks U clock)] ∧
      (s.d.broadcast U env clock s2).1 = { s.d with timestamp := s2 } ∧
      ∀ (es : List Event) (clock2 : Nat → Time) (s3 : String),
        (runEvents U env ((Event.broadcast clock s2).step U env s).1 es).1.d.timestamp = s2 ∧
        (runEvents U env ((Event.broadcast clock s2).step U env s).1 es).1.d.broadcast
            U env clock2 s3 =
          ((runEvents U env ((Event.broadcast clock s2).step U env s).1 es).1.d,
            [SlackCall.UpdateMessage env.SLACK_TOKEN env.CHANNEL_ID s2 env.SLACK_HEADER
              ((runEvents U env ((Event.broadcast clock s2).step U env s).1 es).1.d.blocks
                U clock2)]) := by
  have hlen : s.d.projects.length ≠ 0 := by simpa using hp
  have hb : s.d.broadcast U env clock s2 =
      ({ s.d with timestamp := s2 },
        [SlackCall.PostMessage env.SLACK_TOKEN env.CHANNEL_ID env.SLACK_HEADER
          (s.d.blocks U clock)]) := by
    unfold deployment.broadcast
    simp [hlen, ht]
  refine ⟨by rw [hb], by rw [hb], ?_⟩
  intro es clock2 s3
  have hp1 : ((Event.broadcast clock s2).step U env s).1.d.projects ≠ [] :=
    projects_ne_nil_step U env s _ hp
  have ht1 : ((Event.broadcast clock s2).step U env s).1.d.timestamp = s2 := by
    simp only [Event.step, hb]
  have hr := timestamp_runEvents U env _ es hp1 (by rw [ht1]; exact h2)
  rw [ht1] at hr
  refine ⟨hr.2, ?_⟩
  rw [broadcast_of_timestamp U env _ clock2 s3 hr.1 (by rw [hr.2]; exact h2), hr.2]

theorem C4_publish_once_then_update_witness :
    (deployment.broadcast asciiTables ⟨"tok", "chan", "hdr"⟩
        ⟨[newProject "api" 0 0], "", 0, "", false⟩ (fun _ => 0) "1700000000.000100").2 =
        [SlackCall.PostMessage "tok" "chan" "hdr"
          (deployment.blocks asciiTables ⟨[newProject "api" 0 0], "", 0, "", false⟩
            (fun _ => 0))] :=
  (C4_publish_once_then_update asciiTables ⟨"tok", "chan", "hdr"⟩
    ⟨⟨[newProject "api" 0 0], "", 0, "", false⟩, 1⟩ (fun _ => 0) "1700000000.000100"
    (by decide) (by decide) (by decide)).1

/-! ### The loop of `broadcast` and the summary line -/

theorem broadcastLoop_snd (U : UnicodeTables) (clock : Nat → Time) (i : Nat)
    (ps : List project) (b : Bool) :
    (broadcastLoop U clock i ps b).2 = (ps.all project.success && b) := by
  induction ps generalizing i b with
  | nil => simp [broadcastLoop]
  | cons p ps ih =>
    simp only [broadcastLoop, ih, List.all_cons]
    cases p.success <;> cases ps.all project.success <;> cases b <;> rfl

theorem length_broadcastLoop (U : UnicodeTables) (clock : Nat → Time) (i : Nat)
    (ps : List project) (b : Bool) :
    (broadcastLoop U clock i ps b).1.length = ps.length := by
  induction ps generalizing i b with
  | nil => simp [broadcastLoop]
  | cons p ps ih => simp [broadcastLoop, ih]

theorem getElem?_broadcastLoop (U : UnicodeTables) (clock : Nat → Time) (i j : Nat)
    (ps : List project) (b : Bool) :
    (broadcastLoop U clock i ps b).1[j]? = (ps[j]?).map (fun p => p.block U (clock (i + j))) := by
  induction ps generalizing i j b with
  | nil => simp [broadcastLoop]
  | cons p ps ih =>
    cases j with
    | zero => simp [broadcastLoop]
    | succ j =>
      simp only [broadcastLoop, List.getElem?_cons_succ, ih]
      congr 2
      funext p
      congr 2
      omega

theorem success_iff (p : project) :
    p.success = true ↔ p.failed = false ∧ (p.status = succeeded ∨ p.status = noop) := by
  unfold project.success
  cases p.failed <;> simp

theorem all_success_iff (ps : List project) :
    ps.all project.success = true ↔
      ∀ p ∈ ps, p.failed = false ∧ (p.status = succeeded ∨ p.status = noop) := by
  simp [List.all_eq_true, success_iff]

theorem broadcast_of_projects (U : UnicodeTables) (env : Env) (d : deployment)
    (clock : Nat → Time) (s2 : String) (hp : d.projects ≠ []) :
    ∃ call, (d.broadcast U env clock s2).2 = [call] ∧ call.blocks = d.blocks U clock := by
  unfold deployment.broadcast
  have : d.projects.length ≠ 0 := by simpa using hp
  simp only [this, if_false]
  split
  · exact ⟨_, rfl, rfl⟩
  · exact ⟨_, rfl, rfl⟩

theorem blocks_of_done (U : UnicodeTables) (d : deployment) (clock : Nat → Time)
    (hd : d.done = true) :
    d.blocks U clock =
      (broadcastLoop U clock 0 d.projects true).1 ++
        [summaryBlock d (d.projects.all project.success) (clock d.projects.length)] := by
  unfold deployment.blocks
  simp [hd, broadcastLoop_snd]

/-- C5: when done holds and there is at least one project, the last
attachment of the one Slack call made by broadcast is the summary: it reads
"Succeeded" in green (#0b0) if every project has failed = false and status
succeeded or not deploying, and "Failed" in red (#ff4500) otherwise. -/
theorem C5_summary_line_label_and_color (U : UnicodeTables) (env : Env) (d : deployment)
    (clock : Nat → Time) (s2 : String) (hd : d.done = true) (hp : d.projects ≠ []) :
    ∃ call, (d.broadcast U env clock s2).2 = [call] ∧
      ((∀ p ∈ d.projects, p.failed = false ∧ (p.status = succeeded ∨ p.status = noop)) →
        call.blocks.getLast? = some
          ⟨"#0b0", "Succeeded (took " ++
            formatDuration (Time.Sub (clock d.projects.length) d.startTime) ++ ")", 42⟩) ∧
      (¬ (∀ p ∈ d.projects, p.failed = false ∧ (p.status = succeeded ∨ p.status = noop)) →
        call.blocks.getLast? = some
          ⟨"#ff4500", "Failed (took " ++
            formatDuration (Time.Sub (clock d.projects.length) d.startTime) ++ ")", 42⟩) := by
  obtain ⟨call, hc, hb⟩ := broadcast_of_projects U env d clock s2 hp
  refine ⟨call, hc, ?_, ?_⟩
  · intro h
    rw [hb, blocks_of_done U d clock hd, (all_success_iff _).2 h]
    simp [summaryBlock, colorMap, noop, deploying, building, succeeded]
  · intro h
    have : d.projects.all project.success = false := by
      rw [← Bool.not_eq_true, all_success_iff]; exact h
    rw [hb, blocks_of_done U d clock hd, this]
    simp [summaryBlock, failedColor]

set_option maxRecDepth 100000 in
theorem C5_summary_line_label_and_color_witness :
    ∃ call, (deployment.broadcast asciiTables ⟨"tok", "chan", "hdr"⟩
        ⟨[{ newProject "api" 0 0 with status := succeeded }], "", 0, "", true⟩
        (fun _ => 61000000000) "17.5").2 = [call] ∧
      call.blocks.getLast? = some ⟨"#0b0", "Succeeded (took 01:01)", 42⟩ := by
  obtain ⟨call, hc, hs, _⟩ := C5_summary_line_label_and_color asciiTables
    ⟨"tok", "chan", "hdr"⟩ ⟨[{ newProject "api" 0 0 with status := succeeded }], "", 0, "", true⟩
    (fun _ => 61000000000) "17.5" rfl (by decide)
  exact ⟨call, hc, hs (by decide)⟩

/-! ### The scenario of two projects -/

/-- C6: after startBuilding api, startBuilding web, succeededDeployment api,
failedDeploying web and markDone on a fresh deployment, the render has
exactly three lines: project api with id 0 shown as "Api succeeded", project
web with id 1 shown as "Web FAILED", and the summary line reading "Failed"
in red; broadcast sends exactly these. -/
theorem C6_scenario_api_web_render (U : UnicodeTables) (env : Env)
    (t0 t1 t2 t3 t4 t5 t6 : Time) (clock : Nat → Time) (s2 : String) :
    (markDone (runTransitions (Sys.fresh t0)
        [.startBuilding "api" t1, .startBuilding "web" t2,
          .succeededDeployment "api" t3 t4, .failedDeploying "web" t5 t6])).d.blocks U clock
      = [⟨"#0b0", "Api succeeded (took " ++ formatDuration (Time.Sub t4 t1) ++ ")", 0⟩,
         ⟨"#ff4500", "Web FAILED  building (" ++ formatDuration (Time.Sub (clock 1) t2) ++ ")", 1⟩,
         ⟨"#ff4500", "Failed (took " ++ formatDuration (Time.Sub (clock 2) t0) ++ ")", 42⟩] ∧
    ((markDone (runTransitions (Sys.fresh t0)
        [.startBuilding "api" t1, .startBuilding "web" t2,
          .succeededDeployment "api" t3 t4, .failedDeploying "web" t5 t6])).d.broadcast
        U env clock s2).2
      = [SlackCall.PostMessage env.SLACK_TOKEN env.CHANNEL_ID env.SLACK_HEADER
          [⟨"#0b0", "Api succeeded (took " ++ formatDuration (Time.Sub t4 t1) ++ ")", 0⟩,
           ⟨"#ff4500",
             "Web FAILED  building (" ++ formatDuration (Time.Sub (clock 1) t2) ++ ")", 1⟩,
           ⟨"#ff4500", "Failed (took " ++ formatDuration (Time.Sub (clock 2) t0) ++ ")", 42⟩]] := by
  refine ⟨rfl, ?_⟩
  have hps : (markDone (runTransitions (Sys.fresh t0)
      [.startBuilding "api" t1, .startBuilding "web" t2,
        .succeededDeployment "api" t3 t4, .failedDeploying "web" t5 t6])).d.projects
      = [⟨"api", succeeded, t1, t4, 0, false⟩, ⟨"web", building, t2, t6, 1, true⟩] := rfl
  rw [broadcast_of_no_timestamp U env _ clock s2 (by rw [hps]; simp) rfl]
  rfl

/-! ### Formatting a duration -/

theorem length_toDigitsCore_pos (fuel n : Nat) :
    1 ≤ (Nat.toDigitsCore 10 (fuel + 1) n []).length := by
  unfold Nat.toDigitsCore
  simp only
  split
  · simp
  · rw [Nat.toDigitsCore_lens_eq]
    omega

theorem length_repr_of_lt_ten (n : Nat) (h : n < 10) : (Nat.repr n).length = 1 := by
  interval_cases n <;> rfl

theorem length_repr_of_ten_le (n : Nat) (h : 10 ≤ n) : 2 ≤ (Nat.repr n).length := by
  obtain ⟨m, rfl⟩ : ∃ m, n = m + 1 := ⟨n - 1, by omega⟩
  show 2 ≤ (Nat.toDigitsCore 10 (m + 1 + 1) (m + 1) []).asString.length
  unfold Nat.toDigitsCore
  have h0 : ¬ (m + 1) / 10 = 0 := by omega
  simp only [h0, if_false, List.asString, String.length_mk]
  rw [Nat.toDigitsCore_lens_eq]
  have := length_toDigitsCore_pos m ((m + 1) / 10)
  omega

theorem zeroPad_two_repr (n : Nat) : zeroPad 2 (Nat.repr n) = twoDigits n := by
  unfold zeroPad twoDigits
  by_cases h : n < 10
  · rw [length_repr_of_lt_ten n h, if_pos h]
    rfl
  · have := length_repr_of_ten_le n (by omega)
    rw [if_neg h, show 2 - (Nat.repr n).length = 0 by omega]
    rfl

theorem sprintf02d_natCast (n : Nat) : sprintf02d (n : Int) = twoDigits n := by
  unfold sprintf02d
  have : ¬ ((n : Int) < 0) := by omega
  rw [if_neg this, Int.toNat_ofNat, zeroPad_two_repr]

theorem ilog2Fuel_le (f n : Nat) (h : 1 ≤ n) : 2 ^ ilog2Fuel f n ≤ n := by
  induction f generalizing n with
  | zero => simpa [ilog2Fuel] using h
  | succ f ih =>
    unfold ilog2Fuel
    split
    · simpa using h
    · have h2 : 1 ≤ n / 2 := by omega
      have := ih (n / 2) h2
      rw [pow_succ]
      omega

theorem two_pow_ilog2_le (n : Nat) (h : 1 ≤ n) : 2 ^ ilog2 n ≤ n :=
  ilog2Fuel_le n n h

theorem le_roundHalfEven (n d : Nat) : n / d ≤ roundHalfEven n d := by
  unfold roundHalfEven
  split
  · exact le_rfl
  · split
    · omega
    · split <;> omega

theorem roundHalfEven_le (n d : Nat) (hd : 0 < d) :
    2 * roundHalfEven n d * d ≤ 2 * n + d := by
  have h1 : n = d * (n / d) + n % d := (Nat.div_add_mod n d).symm
  unfold roundHalfEven
  generalize n / d = q at h1 ⊢
  generalize n % d = r at h1 ⊢
  subst h1
  split
  · ring_nf; omega
  · split
    · ring_nf; omega
    · split
      · ring_nf; omega
      · ring_nf; omega

theorem roundHalfEven_mul (N d : Nat) (hd : 0 < d) : roundHalfEven (N * d) d = N := by
  unfold roundHalfEven
  simp [Nat.mul_mod_left, hd, Nat.mul_div_cancel _ hd]

theorem two_pow_toNat_div (e : Int) :
    ((2 : ℚ) ^ e.toNat) / ((2 : ℚ) ^ (-e).toNat) = (2 : ℚ) ^ e := by
  rcases le_total 0 e with h | h
  · have h1 : (-e).toNat = 0 := Int.toNat_eq_zero.2 (by omega)
    rw [h1, pow_zero, div_one, ← zpow_natCast, Int.toNat_of_nonneg h]
  · have h1 : e.toNat = 0 := Int.toNat_eq_zero.2 h
    have h2 : ((-e).toNat : Int) = -e := Int.toNat_of_nonneg (by omega)
    rw [h1, pow_zero, one_div, ← zpow_natCast, h2, zpow_neg, inv_inv]

/-- The scaled quotient rounded by `F64.round`, as a rational. -/
theorem round_scaled (n d : Nat) (e : Int) (hd : 0 < d) :
    ((n * 2 ^ (-e).toNat : Nat) : ℚ) / ((d * 2 ^ e.toNat : Nat) : ℚ) * (2 : ℚ) ^ e
      = (n : ℚ) / (d : ℚ) := by
  have hd' : (d : ℚ) ≠ 0 := by exact_mod_cast hd.ne'
  have h2 : ((2 : ℚ) ^ (-e).toNat) ≠ 0 := pow_ne_zero _ (by norm_num)
  have h3 : ((2 : ℚ) ^ e.toNat) ≠ 0 := pow_ne_zero _ (by norm_num)
  rw [← two_pow_toNat_div e]
  push_cast
  field_simp
  ring

theorem round_val_le (n d : Nat) (hd : 0 < d) :
    (F64.round n d).val ≤ (n : ℚ) / (d : ℚ) + (2 : ℚ) ^ (F64.round n d).exp / 2 := by
  unfold F64.val
  simp only [F64.round]
  generalize ((ilog2 (n * 2 ^ (ilog2 d + 1) / d) : Int) - (ilog2 d + 1 : Nat) - 52) = e
  have hy : 0 < d * 2 ^ e.toNat := Nat.mul_pos hd (Nat.pow_pos (by norm_num))
  have h := roundHalfEven_le (n * 2 ^ (-e).toNat) (d * 2 ^ e.toNat) hy
  have hs := round_scaled n d e hd
  have hyq : (0 : ℚ) < ((d * 2 ^ e.toNat : Nat) : ℚ) := by exact_mod_cast hy
  have he : (0 : ℚ) < (2 : ℚ) ^ e := zpow_pos (by norm_num) e
  have hq : ((roundHalfEven (n * 2 ^ (-e).toNat) (d * 2 ^ e.toNat) : Nat) : ℚ) ≤
      ((n * 2 ^ (-e).toNat : Nat) : ℚ) / ((d * 2 ^ e.toNat : Nat) : ℚ) + 1 / 2 := by
    rw [← sub_nonneg]
    have hc : (2 * roundHalfEven (n * 2 ^ (-e).toNat) (d * 2 ^ e.toNat) * (d * 2 ^ e.toNat) : ℚ)
        ≤ 2 * ((n * 2 ^ (-e).toNat : Nat) : ℚ) + ((d * 2 ^ e.toNat : Nat) : ℚ) := by
      exact_mod_cast h
    have : ((n * 2 ^ (-e).toNat : Nat) : ℚ) / ((d * 2 ^ e.toNat : Nat) : ℚ) + 1 / 2
        - (roundHalfEven (n * 2 ^ (-e).toNat) (d * 2 ^ e.toNat) : ℚ)
        = (2 * ((n * 2 ^ (-e).toNat : Nat) : ℚ) + ((d * 2 ^ e.toNat : Nat) : ℚ)
            - 2 * roundHalfEven (n * 2 ^ (-e).toNat) (d * 2 ^ e.toNat) * (d * 2 ^ e.toNat : Nat))
          / (2 * ((d * 2 ^ e.toNat : Nat) : ℚ)) := by
      field_simp
      ring
    rw [this]
    apply div_nonneg
    · push_cast at hc ⊢
      linarith
    · linarith
  calc ((roundHalfEven (n * 2 ^ (-e).toNat) (d * 2 ^ e.toNat) : Nat) : ℚ) * (2 : ℚ) ^ e
      ≤ (((n * 2 ^ (-e).toNat : Nat) : ℚ) / ((d * 2 ^ e.toNat : Nat) : ℚ) + 1 / 2) * (2 : ℚ) ^ e :=
        mul_le_mul_of_nonneg_right hq he.le
    _ = (n : ℚ) / (d : ℚ) + (2 : ℚ) ^ e / 2 := by rw [add_mul, hs]; ring

theorem le_round_val (n d N : Nat) (hd : 0 < d)
    (h : (N : ℚ) * (2 : ℚ) ^ (F64.round n d).exp ≤ (n : ℚ) / (d : ℚ)) :
    (N : ℚ) * (2 : ℚ) ^ (F64.round n d).exp ≤ (F64.round n d).val := by
  unfold F64.val
  simp only [F64.round] at h ⊢
  generalize ((ilog2 (n * 2 ^ (ilog2 d + 1) / d) : Int) - (ilog2 d + 1 : Nat) - 52) = e at h ⊢
  have hy : 0 < d * 2 ^ e.toNat := Nat.mul_pos hd (Nat.pow_pos (by norm_num))
  have hyq : (0 : ℚ) < ((d * 2 ^ e.toNat : Nat) : ℚ) := by exact_mod_cast hy
  have he : (0 : ℚ) < (2 : ℚ) ^ e := zpow_pos (by norm_num) e
  rw [← round_scaled n d e hd] at h
  have h1 : (N : ℚ) ≤ ((n * 2 ^ (-e).toNat : Nat) : ℚ) / ((d * 2 ^ e.toNat : Nat) : ℚ) :=
    le_of_mul_le_mul_right h he
  rw [le_div_iff₀ hyq] at h1
  have h2 : N * (d * 2 ^ e.toNat) ≤ n * 2 ^ (-e).toNat := by exact_mod_cast h1
  have h3 : N ≤ (n * 2 ^ (-e).toNat) / (d * 2 ^ e.toNat) := (Nat.le_div_iff_mul_le hy).2 h2
  have h4 := le_trans h3 (le_roundHalfEven (n * 2 ^ (-e).toNat) (d * 2 ^ e.toNat))
  exact mul_le_mul_of_nonneg_right (by exact_mod_cast h4) he.le

theorem ilog2_zero : ilog2 0 = 0 := rfl

theorem round_exp_le (n d k : Nat) (h : n < 2 ^ k * d) :
    (F64.round n d).exp ≤ (k : Int) - 53 := by
  simp only [F64.round]
  by_cases hQ : n * 2 ^ (ilog2 d + 1) / d = 0
  · rw [hQ, ilog2_zero]
    push_cast
    omega
  · have h1 := two_pow_ilog2_le _ (Nat.one_le_iff_ne_zero.2 hQ)
    have h2 : n * 2 ^ (ilog2 d + 1) / d * d ≤ n * 2 ^ (ilog2 d + 1) := Nat.div_mul_le_self _ _
    have h3 : 2 ^ ilog2 (n * 2 ^ (ilog2 d + 1) / d) * d < 2 ^ (k + (ilog2 d + 1)) * d := by
      calc 2 ^ ilog2 (n * 2 ^ (ilog2 d + 1) / d) * d
          ≤ n * 2 ^ (ilog2 d + 1) / d * d := Nat.mul_le_mul_right _ h1
        _ ≤ n * 2 ^ (ilog2 d + 1) := h2
        _ < 2 ^ k * d * 2 ^ (ilog2 d + 1) :=
            Nat.mul_lt_mul_of_pos_right h (Nat.pow_pos (by norm_num))
        _ = 2 ^ (k + (ilog2 d + 1)) * d := by rw [pow_add]; ring
    have h4 : 2 ^ ilog2 (n * 2 ^ (ilog2 d + 1) / d) < 2 ^ (k + (ilog2 d + 1)) :=
      Nat.lt_of_mul_lt_mul_right h3
    have h5 : ilog2 (n * 2 ^ (ilog2 d + 1) / d) < k + (ilog2 d + 1) :=
      (Nat.pow_lt_pow_iff_right (by norm_num)).1 h4
    push_cast
    omega

theorem ofNat_val (n : Nat) (h : n < 2 ^ 53) : (F64.ofNat n).val = (n : ℚ) := by
  have he : (F64.round n 1).exp ≤ 0 := by
    have := round_exp_le n 1 53 (by simpa using h)
    simpa using this
  unfold F64.ofNat F64.val
  simp only [F64.round] at he ⊢
  generalize ((ilog2 (n * 2 ^ (ilog2 1 + 1) / 1) : Int) - (ilog2 1 + 1 : Nat) - 52) = e at he ⊢
  have h1 : e.toNat = 0 := Int.toNat_eq_zero.2 he
  have hr := roundHalfEven_mul (n * 2 ^ (-e).toNat) 1 (by norm_num)
  rw [Nat.mul_one] at hr
  rw [h1, pow_zero, Nat.mul_one, hr]
  have := two_pow_toNat_div e
  rw [h1, pow_zero, one_div] at this
  push_cast
  rw [← this, mul_assoc, mul_inv_cancel₀ (pow_ne_zero _ (by norm_num)), mul_one]

theorem div_eq_round (a b : F64) (hb : 0 < b.mant) :
    ∃ n d : Nat, 0 < d ∧ F64.div a b = F64.round n d ∧ (n : ℚ) / (d : ℚ) = a.val / b.val := by
  refine ⟨a.mant * 2 ^ (a.exp - b.exp).toNat, b.mant * 2 ^ (b.exp - a.exp).toNat,
    Nat.mul_pos hb (Nat.pow_pos (by norm_num)), rfl, ?_⟩
  have hbq : (b.mant : ℚ) ≠ 0 := by exact_mod_cast hb.ne'
  have h := two_pow_toNat_div (a.exp - b.exp)
  rw [neg_sub] at h
  have h2 : ((2 : ℚ) ^ (b.exp - a.exp).toNat) ≠ 0 := pow_ne_zero _ (by norm_num)
  have h3 : ((2 : ℚ) ^ b.exp) ≠ 0 := zpow_ne_zero _ (by norm_num)
  unfold F64.val
  push_cast
  rw [show (a.mant : ℚ) * 2 ^ (a.exp - b.exp).toNat / ((b.mant : ℚ) * 2 ^ (b.exp - a.exp).toNat)
      = (a.mant : ℚ) / b.mant * (2 ^ (a.exp - b.exp).toNat / 2 ^ (b.exp - a.exp).toNat) by
        field_simp,
    h, zpow_sub₀ (by norm_num : (2 : ℚ) ≠ 0)]
  field_simp

theorem add_eq_round (a b : F64) :
    ∃ n d : Nat, 0 < d ∧ F64.add a b = F64.round n d ∧ (n : ℚ) / (d : ℚ) = a.val + b.val := by
  refine ⟨(a.mant * 2 ^ (a.exp - min a.exp b.exp).toNat
      + b.mant * 2 ^ (b.exp - min a.exp b.exp).toNat) * 2 ^ (min a.exp b.exp).toNat,
    2 ^ (-(min a.exp b.exp)).toNat, Nat.pow_pos (by norm_num), rfl, ?_⟩
  have h := two_pow_toNat_div (min a.exp b.exp)
  have ha : (((a.exp - min a.exp b.exp).toNat : Int)) = a.exp - min a.exp b.exp :=
    Int.toNat_of_nonneg (by have := min_le_left a.exp b.exp; omega)
  have hb : (((b.exp - min a.exp b.exp).toNat : Int)) = b.exp - min a.exp b.exp :=
    Int.toNat_of_nonneg (by have := min_le_right a.exp b.exp; omega)
  unfold F64.val
  push_cast
  rw [mul_div_assoc, h, ← zpow_natCast (2 : ℚ) (a.exp - min a.exp b.exp).toNat,
    ← zpow_natCast (2 : ℚ) (b.exp - min a.exp b.exp).toNat, ha, hb, add_mul, mul_assoc,
    mul_assoc, ← zpow_add₀ (by norm_num : (2 : ℚ) ≠ 0),
    ← zpow_add₀ (by norm_num : (2 : ℚ) ≠ 0), sub_add_cancel, sub_add_cancel]

theorem toNat_eq_of_val (a : F64) (s : Nat) (h1 : (s : ℚ) ≤ a.val) (h2 : a.val < (s : ℚ) + 1) :
    a.toNat = s := by
  unfold F64.toNat
  have hB : 0 < 2 ^ (-a.exp).toNat := Nat.pow_pos (by norm_num)
  have hBq : (0 : ℚ) < ((2 ^ (-a.exp).toNat : Nat) : ℚ) := by exact_mod_cast hB
  have hv : a.val = ((a.mant * 2 ^ a.exp.toNat : Nat) : ℚ) / ((2 ^ (-a.exp).toNat : Nat) : ℚ) := by
    unfold F64.val
    push_cast
    rw [mul_div_assoc, two_pow_toNat_div]
  rw [hv] at h1 h2
  rw [le_div_iff₀ hBq] at h1
  rw [div_lt_iff₀ hBq] at h2
  apply Nat.div_eq_of_lt_le
  · exact_mod_cast h1
  · exact_mod_cast h2

theorem val_nonneg (a : F64) : 0 ≤ a.val :=
  mul_nonneg (Nat.cast_nonneg _) (zpow_pos (by norm_num) _).le

theorem two_zpow_le (e k : Int) (h : e ≤ k) : (2 : ℚ) ^ e ≤ (2 : ℚ) ^ k :=
  zpow_le_zpow_right₀ (by norm_num) h

theorem secondsF64_toNat (s ns : Nat) (hs : s < 16777216) (hns : ns < 1000000000) :
    (secondsF64 (s * 1000000000 + ns)).toNat = s := by
  have hdiv : (s * 1000000000 + ns) / 1000000000 = s := by omega
  have hmod : (s * 1000000000 + ns) % 1000000000 = ns := by omega
  unfold secondsF64
  rw [hdiv, hmod]
  have hS : (F64.ofNat s).val = (s : ℚ) := ofNat_val s (by omega)
  have hNS : (F64.ofNat ns).val = (ns : ℚ) := ofNat_val ns (by omega)
  have hC : (F64.ofNat 1000000000).val = ((1000000000 : Nat) : ℚ) :=
    ofNat_val 1000000000 (by norm_num)
  have hCm : 0 < (F64.ofNat 1000000000).mant := by
    rcases Nat.eq_zero_or_pos (F64.ofNat 1000000000).mant with h0 | h0
    · exfalso
      unfold F64.val at hC
      rw [h0] at hC
      norm_num at hC
    · exact h0
  obtain ⟨n1, d1, hd1, hq, hr1⟩ := div_eq_round (F64.ofNat ns) (F64.ofNat 1000000000) hCm
  rw [hq]
  rw [hNS, hC] at hr1
  have hd1q : (0 : ℚ) < (d1 : ℚ) := by exact_mod_cast hd1
  have hnsq : (ns : ℚ) ≤ 999999999 := by
    have : ns ≤ 999999999 := by omega
    exact_mod_cast this
  -- the quotient is below one
  have hlt1 : (n1 : ℚ) / (d1 : ℚ) < 1 := by
    rw [hr1, div_lt_one (by norm_num)]
    push_cast
    linarith
  have hn1 : n1 < 2 ^ 0 * d1 := by
    rw [div_lt_one hd1q] at hlt1
    have : n1 < d1 := by exact_mod_cast hlt1
    simpa using this
  have hQe : (F64.round n1 d1).exp ≤ -53 := by
    have := round_exp_le n1 d1 0 hn1
    simpa using this
  have hQu : (F64.round n1 d1).val ≤ (ns : ℚ) / 1000000000 + 1 / 18014398509481984 := by
    have h1 := round_val_le n1 d1 hd1
    have h2 : (2 : ℚ) ^ (F64.round n1 d1).exp ≤ 1 / 9007199254740992 :=
      le_trans (two_zpow_le _ _ hQe) (by norm_num)
    rw [hr1] at h1
    push_cast at h1
    linarith
  have hQ0 := val_nonneg (F64.round n1 d1)
  obtain ⟨n2, d2, hd2, ha, hr2⟩ := add_eq_round (F64.ofNat s) (F64.round n1 d1)
  rw [ha]
  rw [hS] at hr2
  have hd2q : (0 : ℚ) < (d2 : ℚ) := by exact_mod_cast hd2
  have hsq : (s : ℚ) ≤ 16777215 := by
    have : s ≤ 16777215 := by omega
    exact_mod_cast this
  have hfrac : (ns : ℚ) / 1000000000 ≤ 999999999 / 1000000000 := by
    apply div_le_div_of_nonneg_right hnsq (by norm_num)
  -- the sum is below 2 ^ 24
  have hx : (n2 : ℚ) / (d2 : ℚ) < 16777216 := by
    rw [hr2]
    linarith
  have hn2 : n2 < 2 ^ 24 * d2 := by
    rw [div_lt_iff₀ hd2q] at hx
    have : (n2 : ℚ) < ((2 ^ 24 * d2 : Nat) : ℚ) := by
      push_cast
      linarith
    exact_mod_cast this
  have hXe : (F64.round n2 d2).exp ≤ -29 := by
    have := round_exp_le n2 d2 24 hn2
    simpa using this
  apply toNat_eq_of_val
  · -- the rounded sum is not below s
    have hE0 : (F64.round n2 d2).exp ≤ 0 := by omega
    have hpow : ((2 ^ (-(F64.round n2 d2).exp).toNat : Nat) : ℚ) * (2 : ℚ) ^ (F64.round n2 d2).exp
        = 1 := by
      have := two_pow_toNat_div (F64.round n2 d2).exp
      rw [Int.toNat_eq_zero.2 hE0, pow_zero, one_div] at this
      push_cast
      rw [← this]
      exact mul_inv_cancel₀ (pow_ne_zero _ (by norm_num))
    have hN : ((s * 2 ^ (-(F64.round n2 d2).exp).toNat : Nat) : ℚ)
        * (2 : ℚ) ^ (F64.round n2 d2).exp = (s : ℚ) := by
      rw [Nat.cast_mul, mul_assoc, hpow, mul_one]
    have := le_round_val n2 d2 (s * 2 ^ (-(F64.round n2 d2).exp).toNat) hd2
      (by rw [hN, hr2]; linarith)
    rw [hN] at this
    exact this
  · -- the rounded sum is below s + 1
    have h1 := round_val_le n2 d2 hd2
    have h2 : (2 : ℚ) ^ (F64.round n2 d2).exp ≤ 1 / 536870912 :=
      le_trans (two_zpow_le _ _ hXe) (by norm_num)
    rw [hr2] at h1
    linarith

theorem wholeSeconds_natCast (s ns : Nat) (hs : s < 16777216) (hns : ns < 1000000000) :
    Duration.wholeSeconds ((s : Int) * 1000000000 + (ns : Int)) = (s : Int) := by
  have h0 : ((s : Int) * 1000000000 + (ns : Int)) = ((s * 1000000000 + ns : Nat) : Int) := by
    push_cast; rfl
  unfold Duration.wholeSeconds
  rw [h0, if_neg (by omega), Int.natAbs_ofNat, secondsF64_toNat s ns hs hns]

theorem formatDuration_natCast (s ns : Nat) (hs : s < 16777216) (h : ns < 1000000000) :
    formatDuration ((s : Int) * 1000000000 + (ns : Int)) =
      twoDigits (s / 60) ++ ":" ++ twoDigits (s % 60) := by
  unfold formatDuration
  simp only [wholeSeconds_natCast s ns hs h]
  rw [show (60 : Int) = ((60 : Nat) : Int) from rfl, ← Int.ofNat_tdiv, ← Int.ofNat_tmod,
    sprintf02d_natCast, sprintf02d_natCast]

theorem length_twoDigits_of_lt (n : Nat) (h : n < 100) : (twoDigits n).length = 2 := by
  interval_cases n <;> rfl

theorem two_le_length_twoDigits (n : Nat) : 2 ≤ (twoDigits n).length := by
  unfold twoDigits
  by_cases h : n < 10
  · rw [if_pos h, String.length_append, length_repr_of_lt_ten n h]
    decide
  · rw [if_neg h]
    exact length_repr_of_ten_le n (by omega)

set_option maxRecDepth 100000 in
/-- C7 fails as stated: at 2 ^ 24 whole seconds and 999999999 nanoseconds
the sum `float64(sec) + float64(nsec)/1e9` of `Duration.Seconds` rounds up to
the next whole second, so formatDuration gives "279620:17", not the
"279620:16" of the truncated count 16777216. -/
theorem C7_counterexample_float_rounds_up :
    formatDuration ((16777216 : Nat) * 1000000000 + (999999999 : Nat)) = "279620:17" ∧
      twoDigits (16777216 / 60) ++ ":" ++ twoDigits (16777216 % 60) = "279620:16" ∧
      formatDuration ((16777216 : Nat) * 1000000000 + (999999999 : Nat)) ≠
        twoDigits (16777216 / 60) ++ ":" ++ twoDigits (16777216 % 60) := by
  decide

set_option maxRecDepth 100000 in
/-- C7, amended: formatDuration renders the whole seconds of a non-negative
duration of fewer than 2 ^ 24 whole seconds as MM:SS. For a duration of s
whole seconds, s below 16777216, and ns further nanoseconds, with ns below
one second, the result is the decimal of s div 60 zero-padded to at least
two digits, a colon, and the decimal of s mod 60 zero-padded to exactly two
digits; 125 seconds give "02:05", 59 seconds "00:59", 0 seconds "00:00". -/
theorem C7_formatDuration_mm_ss (s ns : Nat) (hs : s < 16777216) (h : ns < 1000000000) :
    formatDuration ((s : Int) * 1000000000 + (ns : Int)) =
        twoDigits (s / 60) ++ ":" ++ twoDigits (s % 60) ∧
      2 ≤ (twoDigits (s / 60)).length ∧
      (twoDigits (s % 60)).length = 2 ∧
      formatDuration 125000000000 = "02:05" ∧
      formatDuration 59000000000 = "00:59" ∧
      formatDuration 0 = "00:00" :=
  ⟨formatDuration_natCast s ns hs h, two_le_length_twoDigits _,
    length_twoDigits_of_lt _ (by omega), by decide, by decide, by decide⟩

theorem C7_formatDuration_mm_ss_witness :
    formatDuration ((6125 : Nat) * 1000000000 + (999999999 : Nat)) =
      twoDigits (6125 / 60) ++ ":" ++ twoDigits (6125 % 60) :=
  (C7_formatDuration_mm_ss 6125 999999999 (by decide) (by decide)).1

/-! ### Broadcasting without projects, and `markDone` -/

/-- C8: with zero projects, whatever the done flag and the stored timestamp,
broadcast makes no Slack call, so no attachment is displayed, and leaves the
deployment as it is. -/
theorem C8_broadcast_zero_projects_noop (U : UnicodeTables) (env : Env) (d : deployment)
    (clock : Nat → Time) (s2 : String) (h : d.projects = []) :
    (d.broadcast U env clock s2).2 = [] ∧
      ((d.broadcast U env clock s2).2.map SlackCall.blocks).flatten = [] ∧
      (d.broadcast U env clock s2).1 = d := by
  unfold deployment.broadcast
  simp [h]

theorem C8_broadcast_zero_projects_noop_witness :
    (deployment.broadcast asciiTables ⟨"tok", "chan", "hdr"⟩ ⟨[], "", 5, "17.5", true⟩
        (fun _ => 9) "18.5").2 = [] ∧
      ((deployment.broadcast asciiTables ⟨"tok", "chan", "hdr"⟩ ⟨[], "", 5, "17.5", true⟩
        (fun _ => 9) "18.5").2.map SlackCall.blocks).flatten = [] ∧
      (deployment.broadcast asciiTables ⟨"tok", "chan", "hdr"⟩ ⟨[], "", 5, "17.5", true⟩
        (fun _ => 9) "18.5").1 = ⟨[], "", 5, "17.5", true⟩ :=
  C8_broadcast_zero_projects_noop asciiTables ⟨"tok", "chan", "hdr"⟩ ⟨[], "", 5, "17.5", true⟩
    (fun _ => 9) "18.5" rfl

theorem iterate_markDone (m : Nat) (s : Sys) : markDone^[m + 1] s = markDone s := by
  induction m with
  | zero => rfl
  | succ m ih => rw [Function.iterate_succ_apply', ih]; rfl

/-- C9: markDone is idempotent: applied twice, or any number of times, it
gives the state of one application, which has done = true and everything
else unchanged; and the one Slack call broadcast makes for a done deployment
with k >= 1 projects carries exactly k + 1 attachments, the k project lines
followed by the single summary line. -/
theorem C9_markDone_idempotent_one_summary (U : UnicodeTables) (env : Env) (s : Sys)
    (clock : Nat → Time) (s2 : String) (m : Nat) (hp : s.d.projects ≠ []) :
    markDone (markDone s) = markDone s ∧
      markDone^[m + 1] s = markDone s ∧
      markDone s = { s with d := { s.d with done := true } } ∧
      ∃ call, ((markDone^[m + 1] s).d.broadcast U env clock s2).2 = [call] ∧
        call.blocks.length = s.d.projects.length + 1 ∧
        (∀ (i : Nat) (p : project), s.d.projects[i]? = some p → call.blocks[i]? = some (p.block U (clock i))) ∧
        call.blocks[s.d.projects.length]? =
          some (summaryBlock (markDone s).d (s.d.projects.all project.success)
            (clock s.d.projects.length)) := by
  refine ⟨rfl, iterate_markDone m s, rfl, ?_⟩
  rw [iterate_markDone]
  obtain ⟨call, hc, hb⟩ := broadcast_of_projects U env (markDone s).d clock s2 hp
  refine ⟨call, hc, ?_, ?_, ?_⟩
  · rw [hb, blocks_of_done U _ clock rfl]
    simp [length_broadcastLoop, markDone]
  · intro i p hi
    have hlt : i < s.d.projects.length := by
      rcases Nat.lt_or_ge i s.d.projects.length with h | h
      · exact h
      · rw [List.getElem?_eq_none h] at hi; cases hi
    rw [hb, blocks_of_done U _ clock rfl, List.getElem?_append_left
      (by rw [length_broadcastLoop]; exact hlt), getElem?_broadcastLoop]
    show Option.map _ (s.d.projects[i]?) = _
    rw [hi]
    simp
  · rw [hb, blocks_of_done U _ clock rfl]
    have hl : (broadcastLoop U clock 0 (markDone s).d.projects true).1.length
        = s.d.projects.length := by rw [length_broadcastLoop]; rfl
    rw [List.getElem?_append_right (by rw [hl]), hl]
    simp [markDone]

theorem C9_markDone_idempotent_one_summary_witness :
    ∃ call, ((markDone^[2 + 1]
          ⟨⟨[newProject "api" 0 0, newProject "web" 1 0], "", 0, "", false⟩, 2⟩).d.broadcast
        asciiTables ⟨"tok", "chan", "hdr"⟩ (fun _ => 0) "17.5").2 = [call] ∧
      call.blocks.length = 2 + 1 :=
  let ⟨call, hc, hl, _⟩ := (C9_markDone_idempotent_one_summary asciiTables
    ⟨"tok", "chan", "hdr"⟩
    ⟨⟨[newProject "api" 0 0, newProject "web" 1 0], "", 0, "", false⟩, 2⟩
    (fun _ => 0) "17.5" 2 (by decide)).2.2.2
  ⟨call, hc, hl⟩

/-! ### The status line of a project -/

/-- C10: statusString is the title-cased name, then the FAILED marker when
failed is set, then a suffix fixed by the status: "is not deploying (no
changes)" for not deploying, "building (MM:SS)" and "deploying (MM:SS)" with
the time since startTime, "succeeded (took MM:SS)" with the time from
startTime to endTime, and nothing for an unset status. -/
theorem C10_statusString_by_stage (U : UnicodeTables) (p : project) (now : Time) :
    ({ p with status := noop }).statusString U now =
        Title U p.name ++ (if p.failed then " FAILED " else "") ++
          " is not deploying (no changes)" ∧
      ({ p with status := building }).statusString U now =
        Title U p.name ++ (if p.failed then " FAILED " else "") ++
          (" building (" ++ formatDuration (Time.Sub now p.startTime) ++ ")") ∧
      ({ p with status := deploying }).statusString U now =
        Title U p.name ++ (if p.failed then " FAILED " else "") ++
          (" deploying (" ++ formatDuration (Time.Sub now p.startTime) ++ ")") ∧
      ({ p with status := succeeded }).statusString U now =
        Title U p.name ++ (if p.failed then " FAILED " else "") ++
          (" succeeded (took " ++ formatDuration (Time.Sub p.endTime p.startTime) ++ ")") ∧
      ({ p with status := "" }).statusString U now =
        Title U p.name ++ (if p.failed then " FAILED " else "") ++ "" := by
  have e4 : (building = noop) = False := by decide
  have e5 : (deploying = noop) = False := by decide
  have e6 : (deploying = building) = False := by decide
  have e7 : (succeeded = noop) = False := by decide
  have e8 : (succeeded = building) = False := by decide
  have e9 : (succeeded = deploying) = False := by decide
  have f1 : ("" = noop) = False := by decide
  have f2 : ("" = building) = False := by decide
  have f3 : ("" = deploying) = False := by decide
  have f4 : ("" = succeeded) = False := by decide
  cases hf : p.failed <;>
    simp [project.statusString, project.statusText, hf, e4, e5, e6, e7, e8, e9, f1, f2, f3, f4]

/-! ### The project lines of a render -/

theorem getElem?_blocks (U : UnicodeTables) (d : deployment) (clock : Nat → Time) (i : Nat)
    (p : project) (h : d.projects[i]? = some p) :
    (d.blocks U clock)[i]? = some (p.block U (clock i)) := by
  have hlt : i < d.projects.length := by
    rcases Nat.lt_or_ge i d.projects.length with h1 | h1
    · exact h1
    · rw [List.getElem?_eq_none h1] at h; cases h
  have hloop : (broadcastLoop U clock 0 d.projects true).1[i]? = some (p.block U (clock i)) := by
    rw [getElem?_broadcastLoop, h]
    simp
  unfold deployment.blocks
  simp only
  split
  · rw [List.getElem?_append_left (by rw [length_broadcastLoop]; exact hlt)]
    exact hloop
  · exact hloop

theorem projects_ne_nil_of_getElem? {d : deployment} {i : Nat} {p : project}
    (h : d.projects[i]? = some p) : d.projects ≠ [] := by
  intro hn
  rw [hn] at h
  simp at h

/-- C11: in the render sent by broadcast, the attachment of a project is red
(#ff4500) whenever failed is set, whatever the status; otherwise it is #aaa
for not deploying, #ffa500 for building and for deploying, and #0b0 for
succeeded. -/
theorem C11_attachment_color (U : UnicodeTables) (env : Env) (d : deployment)
    (clock : Nat → Time) (s2 : String) (i : Nat) (p : project)
    (h : d.projects[i]? = some p) :
    ∃ call a, (d.broadcast U env clock s2).2 = [call] ∧ call.blocks[i]? = some a ∧
      (p.failed = true → a.Color = "#ff4500") ∧
      (p.failed = false → p.status = noop → a.Color = "#aaa") ∧
      (p.failed = false → p.status = building → a.Color = "#ffa500") ∧
      (p.failed = false → p.status = deploying → a.Color = "#ffa500") ∧
      (p.failed = false → p.status = succeeded → a.Color = "#0b0") := by
  obtain ⟨call, hc, hb⟩ := broadcast_of_projects U env d clock s2 (projects_ne_nil_of_getElem? h)
  refine ⟨call, p.block U (clock i), hc, ?_, ?_, ?_, ?_, ?_, ?_⟩
  · rw [hb]; exact getElem?_blocks U d clock i p h
  · intro hf; simp [project.block, hf, failedColor]
  · intro hf hs; simp [project.block, hf, hs, colorMap]
  · intro hf hs
    have e : (building = noop) = False := by decide
    have e2 : (building = deploying) = False := by decide
    simp [project.block, hf, hs, colorMap, e, e2]
  · intro hf hs
    have e : (deploying = noop) = False := by decide
    simp [project.block, hf, hs, colorMap, e]
  · intro hf hs
    have e : (succeeded = noop) = False := by decide
    have e2 : (succeeded = deploying) = False := by decide
    have e3 : (succeeded = building) = False := by decide
    simp [project.block, hf, hs, colorMap, e, e2, e3]

theorem C11_attachment_color_witness :
    ∃ call a, (deployment.broadcast asciiTables ⟨"tok", "chan", "hdr"⟩
        ⟨[{ newProject "api" 0 0 with status := building, failed := true }], "", 0, "", false⟩
        (fun _ => 0) "17.5").2 = [call] ∧
      call.blocks[0]? = some a ∧ a.Color = "#ff4500" :=
  let ⟨call, a, hc, ha, hf, _⟩ := C11_attachment_color asciiTables ⟨"tok", "chan", "hdr"⟩
    ⟨[{ newProject "api" 0 0 with status := building, failed := true }], "", 0, "", false⟩
    (fun _ => 0) "17.5" 0 { newProject "api" 0 0 with status := building, failed := true } rfl
  ⟨call, a, hc, ha, hf rfl⟩

/-! ### What each transition assigns -/

theorem record_updateOrAppend (f : project → project) (n : String) (np : project)
    (ps : List project) (hf : ∀ q, (f q).name = q.name) (hnp : np.name = n) :
    record n (updateOrAppend f n np ps) = some (f ((record n ps).getD np)) := by
  induction ps with
  | nil => simp [updateOrAppend, record, hf, hnp]
  | cons q qs ih =>
    by_cases hq : q.name = n
    · simp [updateOrAppend, record, hq, hf]
    · simp [updateOrAppend, record, hq, ih]

theorem record_apply (s : Sys) (t : Transition) :
    record t.pName (t.apply s).d.projects = some (t.update (recordOrNew s t.pName t.now)) := by
  rw [projects_apply]
  exact record_updateOrAppend t.update t.pName _ s.d.projects t.update_name rfl

/-- C12: each per-project transition changes only the fields its row names
in the record for its name (the existing record, or the one just created):
failedDeploying sets failed = true and endTime to its clock reading and
leaves the status; succeededDeployment sets the status to succeeded and
endTime and leaves failed; notDeploying, startBuilding and startDeploying
set the status only, so endTime is written by the two terminal transitions
only. -/
theorem C12_transition_assigns_only_its_fields (s : Sys) (n : String) (now now2 : Time) :
    record n (deployment.failedDeploying s n now now2).d.projects =
        some { recordOrNew s n now with failed := true, endTime := now2 } ∧
      record n (deployment.succeededDeployment s n now now2).d.projects =
        some { recordOrNew s n now with status := succeeded, endTime := now2 } ∧
      record n (deployment.notDeploying s n now).d.projects =
        some { recordOrNew s n now with status := noop } ∧
      record n (deployment.startBuilding s n now).d.projects =
        some { recordOrNew s n now with status := building } ∧
      record n (deployment.startDeploying s n now).d.projects =
        some { recordOrNew s n now with status := deploying } :=
  ⟨record_apply s (.failedDeploying n now now2),
   record_apply s (.succeededDeployment n now now2),
   record_apply s (.notDeploying n now),
   record_apply s (.startBuilding n now),
   record_apply s (.startDeploying n now)⟩

theorem map_ID_broadcastLoop (U : UnicodeTables) (clock : Nat → Time) (i : Nat)
    (ps : List project) (b : Bool) :
    (broadcastLoop U clock i ps b).1.map Attachment.ID = ps.map project.id := by
  induction ps generalizing i b with
  | nil => simp [broadcastLoop]
  | cons p ps ih => simp [broadcastLoop, ih, project.block]

theorem take_blocks (U : UnicodeTables) (d : deployment) (clock : Nat → Time) :
    (d.blocks U clock).take d.projects.length = (broadcastLoop U clock 0 d.projects true).1 := by
  have hl := length_broadcastLoop U clock 0 d.projects true
  unfold deployment.blocks
  simp only
  split
  · rw [← hl, List.take_left']
    rfl
  · rw [← hl, List.take_length]

theorem length_blocks (U : UnicodeTables) (d : deployment) (clock : Nat → Time) :
    (d.blocks U clock).length = d.projects.length + (if d.done then 1 else 0) := by
  unfold deployment.blocks
  simp only
  split <;> simp [length_broadcastLoop]

theorem IdsInOrder.step (U : UnicodeTables) (env : Env) {s : Sys} (h : IdsInOrder s)
    (e : Event) : IdsInOrder (e.step U env s).1 := by
  cases e with
  | transition t => exact h.apply t
  | markDone => exact h
  | broadcast clock s2 =>
    unfold IdsInOrder
    simp only [Event.step, broadcast_projects]
    exact h

theorem IdsInOrder.runEvents (U : UnicodeTables) (env : Env) {s : Sys} (h : IdsInOrder s)
    (es : List Event) : IdsInOrder (runEvents U env s es).1 := by
  induction es generalizing s with
  | nil => exact h
  | cons e es ih => exact ih (h.step U env e)

/-- C13: for a deployment with k >= 1 projects, the render sent by broadcast
starts with exactly k project lines: the i-th is built from the i-th record
of the project list and carries its id, and the one further line, present
when done holds, is the summary. In every state reached from a fresh
deployment the ids along the list are strictly increasing, so the project
lines are in ascending id order. -/
theorem C13_project_lines_in_list_order (U : UnicodeTables) (env : Env) (d : deployment)
    (clock : Nat → Time) (s2 : String) (now : Time) (es : List Event)
    (hp : d.projects ≠ []) :
    (∃ call, (d.broadcast U env clock s2).2 = [call] ∧
      call.blocks.length = d.projects.length + (if d.done then 1 else 0) ∧
      (∀ (i : Nat) (p : project), d.projects[i]? = some p →
        call.blocks[i]? = some (p.block U (clock i)) ∧ (p.block U (clock i)).ID = p.id) ∧
      (call.blocks.take d.projects.length).map Attachment.ID = d.projects.map project.id) ∧
    ((runEvents U env (Sys.fresh now) es).1.d.projects.map project.id).Pairwise (· < ·) := by
  constructor
  · obtain ⟨call, hc, hb⟩ := broadcast_of_projects U env d clock s2 hp
    refine ⟨call, hc, ?_, ?_, ?_⟩
    · rw [hb, length_blocks]
    · intro i p hi
      rw [hb]
      exact ⟨getElem?_blocks U d clock i p hi, rfl⟩
    · rw [hb, take_blocks, map_ID_broadcastLoop]
  · rw [((IdsInOrder.fresh now).runEvents U env es).1]
    exact pairwise_lt_range_int _

theorem C13_project_lines_in_list_order_witness :
    ∃ call, (deployment.broadcast asciiTables ⟨"tok", "chan", "hdr"⟩
        ⟨[newProject "api" 0 0, newProject "web" 1 0], "", 0, "", true⟩
        (fun _ => 0) "17.5").2 = [call] ∧
      call.blocks.length = 3 ∧
      (call.blocks.take 2).map Attachment.ID = [0, 1] :=
  let ⟨call, hc, hl, _, hid⟩ := (C13_project_lines_in_list_order asciiTables
    ⟨"tok", "chan", "hdr"⟩ ⟨[newProject "api" 0 0, newProject "web" 1 0], "", 0, "", true⟩
    (fun _ => 0) "17.5" 0 [] (by decide)).1
  ⟨call, hc, hl, hid⟩

/-! ### `deployment.project` -/

theorem lookup_of_record_some {n : String} {ps : List project} {p : project}
    (h : record n ps = some p) : ∃ i, lookup n ps = some i ∧ ps[i]? = some p := by
  induction ps with
  | nil => simp [record] at h
  | cons q qs ih =>
    by_cases hq : q.name = n
    · simp only [record, hq, if_true, Option.some.injEq] at h
      exact ⟨0, by simp [lookup, hq], by simp [h]⟩
    · simp only [record, hq, if_false] at h
      obtain ⟨i, hi, hp⟩ := ih h
      exact ⟨i + 1, by simp [lookup, hq, hi], by simpa using hp⟩

theorem lookup_of_record_none {n : String} {ps : List project}
    (h : record n ps = none) : lookup n ps = none := by
  induction ps with
  | nil => rfl
  | cons q qs ih =>
    by_cases hq : q.name = n
    · simp [record, hq] at h
    · simp only [record, hq, if_false] at h
      simp [lookup, hq, ih h]

/-- C14: deployment.project, for every state and every name, the empty
string included: if a record with exactly that name exists, its position is
returned and the state is unchanged; otherwise exactly one record is
appended at the end, with that name, the next id of the generator, startTime
equal to the clock reading, status unset and failed = false, the records
already present stay as they are, and the position of the new record is
returned. The function is total. -/
theorem C14_project_get_or_create (s : Sys) (n : String) (now : Time) :
    (∀ p : project, record n s.d.projects = some p →
      (deployment.project s n now).1 = s ∧
        s.d.projects[(deployment.project s n now).2]? = some p) ∧
    (record n s.d.projects = none →
      (deployment.project s n now).1 =
          { d := { s.d with projects := s.d.projects ++ [⟨n, "", now, 0, s.nextID, false⟩] },
            nextID := s.nextID + 1 } ∧
        (deployment.project s n now).2 = s.d.projects.length ∧
        (deployment.project s n now).1.d.projects[(deployment.project s n now).2]? =
          some ⟨n, "", now, 0, s.nextID, false⟩) ∧
    deployment.project (Sys.fresh now) "" now =
      (⟨⟨[⟨"", "", now, 0, 0, false⟩], "", now, "", false⟩, 1⟩, 0) := by
  refine ⟨?_, ?_, rfl⟩
  · intro p hp
    obtain ⟨i, hi, hget⟩ := lookup_of_record_some hp
    unfold deployment.project
    rw [hi]
    exact ⟨rfl, hget⟩
  · intro hn
    have hl := lookup_of_record_none hn
    unfold deployment.project
    rw [hl]
    refine ⟨rfl, rfl, ?_⟩
    simp [newProject]

/-! ### The status of reachable records -/

theorem mem_updateOrAppend {f : project → project} {n : String} {np p : project}
    {ps : List project} (h : p ∈ updateOrAppend f n np ps) :
    p ∈ ps ∨ (∃ q ∈ ps, p = f q) ∨ p = f np := by
  induction ps with
  | nil =>
    simp only [updateOrAppend, List.mem_singleton] at h
    exact Or.inr (Or.inr h)
  | cons q qs ih =>
    unfold updateOrAppend at h
    split at h
    · rcases List.mem_cons.1 h with h1 | h1
      · exact Or.inr (Or.inl ⟨q, List.mem_cons_self _ _, h1⟩)
      · exact Or.inl (List.mem_cons_of_mem _ h1)
    · rcases List.mem_cons.1 h with h1 | h1
      · exact Or.inl (h1 ▸ List.mem_cons_self _ _)
      · rcases ih h1 with h2 | ⟨r, hr, h2⟩ | h2
        · exact Or.inl (List.mem_cons_of_mem _ h2)
        · exact Or.inr (Or.inl ⟨r, List.mem_cons_of_mem _ hr, h2⟩)
        · exact Or.inr (Or.inr h2)

theorem stageSetOrFailed_update (t : Transition) {p : project} (h : StageSetOrFailed p) :
    StageSetOrFailed (t.update p) := by
  unfold StageSetOrFailed at h ⊢
  cases t <;> simp only [Transition.update, true_or, or_true]
  rcases h with h | h | h | h | ⟨h, _⟩ <;> simp [h]

theorem stageSetOrFailed_update_new (t : Transition) (n : String) (id : Int) (now : Time) :
    StageSetOrFailed (t.update (newProject n id now)) := by
  unfold StageSetOrFailed
  cases t <;> simp [Transition.update, newProject]

theorem stageSetOrFailed_apply {s : Sys} (h : ∀ p ∈ s.d.projects, StageSetOrFailed p)
    (t : Transition) : ∀ p ∈ (t.apply s).d.projects, StageSetOrFailed p := by
  intro p hp
  rw [projects_apply] at hp
  rcases mem_updateOrAppend hp with h1 | ⟨q, hq, h1⟩ | h1
  · exact h p h1
  · rw [h1]; exact stageSetOrFailed_update t (h q hq)
  · rw [h1]; exact stageSetOrFailed_update_new t _ _ _

/-- C15 fails as stated: failedDeploying for a name never seen creates a
record whose status stays unset, and that record is displayed. -/
theorem C15_counterexample_failed_first :
    (¬ ∀ p ∈ (runTransitions (Sys.fresh 0) [.failedDeploying "web" 1 2]).d.projects,
        p.status = noop ∨ p.status = building ∨ p.status = deploying ∨ p.status = succeeded) ∧
      (runTransitions (Sys.fresh 0) [.failedDeploying "web" 1 2]).d.blocks asciiTables
          (fun _ => 3) = [⟨"#ff4500", "Web FAILED ", 0⟩] := by
  constructor
  · decide
  · rfl

/-- C15, amended: in every state reached from a fresh deployment by
per-project transitions, every record has its status set to one of not
deploying, building, deploying or succeeded, or has an unset status together
with failed = true; so a record with an unset status is displayed only as
FAILED. -/
theorem C15_stage_set_or_failed (now : Time) (ts : List Transition) :
    ∀ p ∈ (runTransitions (Sys.fresh now) ts).d.projects,
      p.status = noop ∨ p.status = building ∨ p.status = deploying ∨ p.status = succeeded ∨
        (p.status = "" ∧ p.failed = true) := by
  have key : ∀ (ts : List Transition) (s : Sys), (∀ p ∈ s.d.projects, StageSetOrFailed p) →
      ∀ p ∈ (runTransitions s ts).d.projects, StageSetOrFailed p := by
    intro ts
    induction ts with
    | nil => intro s h; exact h
    | cons t ts ih => intro s h; exact ih (t.apply s) (stageSetOrFailed_apply h t)
  exact key ts (Sys.fresh now) (by intro p hp; simp [Sys.fresh] at hp)

theorem C15_stage_set_or_failed_witness :
    (⟨"web", "", 1, 2, 0, true⟩ : project) ∈
        (runTransitions (Sys.fresh 0) [.failedDeploying "web" 1 2]).d.projects ∧
      ((⟨"web", "", 1, 2, 0, true⟩ : project).status = noop ∨
        (⟨"web", "", 1, 2, 0, true⟩ : project).status = building ∨
        (⟨"web", "", 1, 2, 0, true⟩ : project).status = deploying ∨
        (⟨"web", "", 1, 2, 0, true⟩ : project).status = succeeded ∨
        ((⟨"web", "", 1, 2, 0, true⟩ : project).status = "" ∧
          (⟨"web", "", 1, 2, 0, true⟩ : project).failed = true)) :=
  ⟨by decide,
   C15_stage_set_or_failed 0 [.failedDeploying "web" 1 2] ⟨"web", "", 1, 2, 0, true⟩
    (by decide)⟩

/-! ### A Slack call that fails -/

theorem runEvents_of_no_broadcast (U : UnicodeTables) (env : Env) (s : Sys) (es : List Event)
    (hp : s.d.projects ≠ []) (hq : ∀ e ∈ es, e.isBroadcast = false) :
    (runEvents U env s es).1.d.projects ≠ [] ∧
      (runEvents U env s es).1.d.timestamp = s.d.timestamp := by
  induction es generalizing s with
  | nil => exact ⟨hp, rfl⟩
  | cons e es ih =>
    have hp1 := projects_ne_nil_step U env s e hp
    have ht1 : (e.step U env s).1.d.timestamp = s.d.timestamp := by
      cases e with
      | transition t => exact timestamp_apply s t
      | markDone => rfl
      | broadcast clock s2 =>
        have := hq (Event.broadcast clock s2) (List.mem_cons_self _ _)
        simp [Event.isBroadcast] at this
    have := ih (e.step U env s).1 hp1 (fun e he => hq e (List.mem_cons_of_mem _ he))
    exact ⟨this.1, this.2.trans ht1⟩

/-- C16: a Slack call that fails leaves the state in memory as it was.
Whatever the call hands back, broadcast changes neither the project list nor
the done flag. A failed `PostMessage` hands back the empty timestamp, so the
whole deployment is as before, with no timestamp stored, and the broadcast
after any further transitions or markDone publishes again with the render of
the state of that moment. The results of `UpdateMessage` are discarded, so
with a stored timestamp the deployment is as before whether the call fails
or not, and the next broadcast updates again with the current render. -/
theorem C16_failed_slack_call_keeps_state (U : UnicodeTables) (env : Env) (s : Sys)
    (clock clock2 : Nat → Time) (s2 s3 : String) (es : List Event)
    (hp : s.d.projects ≠ []) (hq : ∀ e ∈ es, e.isBroadcast = false) :
    (s.d.broadcast U env clock s2).1.projects = s.d.projects ∧
      (s.d.broadcast U env clock s2).1.done = s.d.done ∧
      (s.d.timestamp = "" →
        (s.d.broadcast U env clock "").1 = s.d ∧
        ((runEvents U env { s with d := (s.d.broadcast U env clock "").1 } es).1.d.broadcast
            U env clock2 s3).2 =
          [SlackCall.PostMessage env.SLACK_TOKEN env.CHANNEL_ID env.SLACK_HEADER
            ((runEvents U env { s with d := (s.d.broadcast U env clock "").1 } es).1.d.blocks
              U clock2)]) ∧
      (s.d.timestamp ≠ "" →
        (s.d.broadcast U env clock s2).1 = s.d ∧
        ((runEvents U env { s with d := (s.d.broadcast U env clock s2).1 } es).1.d.broadcast
            U env clock2 s3).2 =
          [SlackCall.UpdateMessage env.SLACK_TOKEN env.CHANNEL_ID s.d.timestamp
            env.SLACK_HEADER
            ((runEvents U env { s with d := (s.d.broadcast U env clock s2).1 } es).1.d.blocks
              U clock2)]) := by
  refine ⟨broadcast_projects U env s.d clock s2, ?_, ?_, ?_⟩
  · unfold deployment.broadcast
    split
    · rfl
    · split <;> rfl
  · intro ht
    have hb : (s.d.broadcast U env clock "").1 = s.d := by
      rw [broadcast_of_no_timestamp U env s.d clock "" hp ht]
      cases hd : s.d
      rw [hd] at ht
      simp only at ht
      simp [ht]
    refine ⟨hb, ?_⟩
    rw [hb]
    have hr := runEvents_of_no_broadcast U env s es hp hq
    show ((runEvents U env s es).1.d.broadcast U env clock2 s3).2 = _
    rw [broadcast_of_no_timestamp U env _ clock2 s3 hr.1 (hr.2.trans ht)]
  · intro ht
    have hb : (s.d.broadcast U env clock s2).1 = s.d := by
      rw [broadcast_of_timestamp U env s.d clock s2 hp ht]
    refine ⟨hb, ?_⟩
    rw [hb]
    have hr := runEvents_of_no_broadcast U env s es hp hq
    show ((runEvents U env s es).1.d.broadcast U env clock2 s3).2 = _
    rw [broadcast_of_timestamp U env _ clock2 s3 hr.1 (by rw [hr.2]; exact ht), hr.2]

set_option maxRecDepth 100000 in
theorem C16_failed_slack_call_keeps_state_witness :
    (deployment.broadcast asciiTables ⟨"tok", "chan", "hdr"⟩
        ⟨[newProject "api" 0 0], "", 0, "", false⟩ (fun _ => 0) "").1 =
        ⟨[newProject "api" 0 0], "", 0, "", false⟩ ∧
      ((runEvents asciiTables ⟨"tok", "chan", "hdr"⟩
          ⟨(deployment.broadcast asciiTables ⟨"tok", "chan", "hdr"⟩
            ⟨[newProject "api" 0 0], "", 0, "", false⟩ (fun _ => 0) "").1, 1⟩
          [Event.transition (.startBuilding "web" 5), Event.markDone]).1.d.broadcast
          asciiTables ⟨"tok", "chan", "hdr"⟩ (fun _ => 1000000000) "17.5").2 =
        [SlackCall.PostMessage "tok" "chan" "hdr"
          [⟨"", "Api", 0⟩, ⟨"#ffa500", "Web building (00:00)", 1⟩,
            ⟨"#ff4500", "Failed (took 00:01)", 42⟩]] :=
  (C16_failed_slack_call_keeps_state asciiTables ⟨"tok", "chan", "hdr"⟩
    ⟨⟨[newProject "api" 0 0], "", 0, "", false⟩, 1⟩ (fun _ => 0) (fun _ => 1000000000)
    "" "17.5" [Event.transition (.startBuilding "web" 5), Event.markDone]
    (by decide) (by decide)).2.2.1 rfl

/-! ### The lock -/

/-- C17, the code against the claim: `project` and `broadcast` touch the
shared state only while they hold the lock, but each of the five transitions
assigns to the record after `project` has released it, the `/done` handler
assigns `d.done` without the lock, and `periodicBroadcast` reads `d.done`
without it. -/
theorem C17_accesses_outside_the_lock :
    (∀ found, lockHeldAtEveryAccess false (Act.project found) = true) ∧
      (∀ a b c, lockHeldAtEveryAccess false (Act.broadcast a b c) = true) ∧
      (∀ found, lockHeldAtEveryAccess false (Act.setStatus found) = false) ∧
      (∀ found, lockHeldAtEveryAccess false (Act.setTerminal found) = false) ∧
      (∀ a c, lockHeldAtEveryAccess false (Act.doneHandler a c) = false) ∧
      (∀ a b c, lockHeldAtEveryAccess false (Act.periodicTick a b c) = false) := by
  decide

/-! ### The ticker loop -/

theorem done_apply (s : Sys) (t : Transition) : (t.apply s).d.done = s.d.done := by
  rw [Transition.apply_eq]
  unfold deployment.project Sys.assign
  cases lookup t.pName s.d.projects <;> rfl

theorem broadcast_done (U : UnicodeTables) (env : Env) (d : deployment)
    (clock : Nat → Time) (s2 : String) : (d.broadcast U env clock s2).1.done = d.done := by
  unfold deployment.broadcast
  split
  · rfl
  · split <;> rfl

theorem done_runEvents (U : UnicodeTables) (env : Env) (s : Sys) (es : List Event)
    (h : s.d.done = true) : (runEvents U env s es).1.d.done = true := by
  induction es generalizing s with
  | nil => exact h
  | cons e es ih =>
    apply ih
    cases e with
    | transition t => exact (done_apply s t).trans h
    | markDone => rfl
    | broadcast clock s2 => exact (broadcast_done U env s.d clock s2).trans h

theorem length_periodicBroadcast (U : UnicodeTables) (env : Env) (running : Bool) (s : Sys)
    (ticks : List Tick) :
    (deployment.periodicBroadcast U env running s ticks).length = ticks.length := by
  induction ticks generalizing running s with
  | nil => rfl
  | cons t ts ih =>
    unfold deployment.periodicBroadcast
    simp only
    split
    · split <;> simp [ih]
    · simp [ih]

theorem periodicBroadcast_returned (U : UnicodeTables) (env : Env) (s : Sys)
    (ticks : List Tick) :
    ∀ x ∈ deployment.periodicBroadcast U env false s ticks, x.broadcast = none := by
  induction ticks generalizing s with
  | nil => intro x hx; simp [deployment.periodicBroadcast] at hx
  | cons t ts ih =>
    intro x hx
    unfold deployment.periodicBroadcast at hx
    simp only [Bool.false_eq_true, if_false, List.mem_cons] at hx
    rcases hx with hx | hx
    · rw [hx]
    · exact ih _ x hx

theorem periodicBroadcast_entry (U : UnicodeTables) (env : Env) (running : Bool) (s : Sys)
    (ticks : List Tick) (hs : running = false → s.d.done = true) :
    ∀ x ∈ deployment.periodicBroadcast U env running s ticks,
      (x.done = true → x.broadcast = none) ∧ (x.done = false → x.broadcast.isSome = true) := by
  induction ticks generalizing running s with
  | nil => intro x hx; simp [deployment.periodicBroadcast] at hx
  | cons t ts ih =>
    intro x hx
    unfold deployment.periodicBroadcast at hx
    simp only at hx
    split at hx
    · split at hx
      · rename_i hd
        rcases List.mem_cons.1 hx with hx | hx
        · rw [hx]; simp
        · exact ih false _ (fun _ => hd) x hx
      · rcases List.mem_cons.1 hx with hx | hx
        · rw [hx]; simp
        · exact ih true _ (fun h => by cases h) x hx
    · rename_i hr
      have hrun : running = false := by simpa using hr
      have hd := done_runEvents U env s t.before (hs hrun)
      rcases List.mem_cons.1 hx with hx | hx
      · rw [hx]; simp [hd]
      · exact ih false _ (fun _ => hd) x hx

theorem periodicBroadcast_after_done (U : UnicodeTables) (env : Env) (running : Bool)
    (s : Sys) (ticks : List Tick) (pre post : List TickLog) (e : TickLog)
    (h : deployment.periodicBroadcast U env running s ticks = pre ++ e :: post)
    (he : e.done = true) : ∀ x ∈ post, x.broadcast = none := by
  induction ticks generalizing running s pre with
  | nil =>
    simp [deployment.periodicBroadcast] at h
  | cons t ts ih =>
    unfold deployment.periodicBroadcast at h
    simp only at h
    cases pre with
    | nil =>
      simp only [List.nil_append] at h
      split at h
      · split at h
        · rw [← (List.cons.inj h).2]
          exact periodicBroadcast_returned U env _ ts
        · have := (List.cons.inj h).1
          rw [← this] at he
          simp at he
      · rw [← (List.cons.inj h).2]
        exact periodicBroadcast_returned U env _ ts
    | cons p pre =>
      simp only [List.cons_append] at h
      split at h
      · split at h
        · exact ih _ _ _ (List.cons.inj h).2
        · exact ih _ _ _ (List.cons.inj h).2
      · exact ih _ _ _ (List.cons.inj h).2

/-- C18: over any sequence of ticks, with handlers acting in between,
periodicBroadcast makes no broadcast at a tick at which done holds and
exactly one broadcast at a tick at which done does not hold; after a tick at
which done held the loop has returned, so no later tick has a broadcast. -/
theorem C18_periodicBroadcast_stops_at_done (U : UnicodeTables) (env : Env) (s : Sys)
    (ticks : List Tick) :
    (deployment.periodicBroadcast U env true s ticks).length = ticks.length ∧
      (∀ x ∈ deployment.periodicBroadcast U env true s ticks,
        (x.done = true → x.broadcast = none) ∧
          (x.done = false → x.broadcast.isSome = true)) ∧
      (∀ (pre post : List TickLog) (e : TickLog),
        deployment.periodicBroadcast U env true s ticks = pre ++ e :: post →
          e.done = true → ∀ x ∈ post, x.broadcast = none) :=
  ⟨length_periodicBroadcast U env true s ticks,
   periodicBroadcast_entry U env true s ticks (fun h => by cases h),
   fun pre post e h he => periodicBroadcast_after_done U env true s ticks pre post e h he⟩

/-! ### What a transition leaves alone -/

theorem getElem?_updateOrAppend_of_ne {f : project → project} {n : String} {np p : project}
    {ps : List project} {i : Nat} (h : ps[i]? = some p) (hne : p.name ≠ n) :
    (updateOrAppend f n np ps)[i]? = some p := by
  induction ps generalizing i with
  | nil => simp at h
  | cons q qs ih =>
    unfold updateOrAppend
    cases i with
    | zero =>
      simp only [List.getElem?_cons_zero, Option.some.injEq] at h
      subst h
      simp [hne]
    | succ i =>
      simp only [List.getElem?_cons_succ] at h
      split
      · simpa using h
      · simpa using ih h

theorem startTime_apply (s : Sys) (t : Transition) :
    (t.apply s).d.startTime = s.d.startTime := by
  rw [Transition.apply_eq]
  unfold deployment.project Sys.assign
  cases lookup t.pName s.d.projects <;> rfl

theorem link_apply (s : Sys) (t : Transition) : (t.apply s).d.link = s.d.link := by
  rw [Transition.apply_eq]
  unfold deployment.project Sys.assign
  cases lookup t.pName s.d.projects <;> rfl

/-- C20: a per-project transition on a name leaves every record with another
name as it is, in all its fields and at its position in the project list,
and leaves the start time, the done flag and the timestamp of the deployment
as they are. -/
theorem C20_transition_frame (s : Sys) (t : Transition) :
    (∀ (i : Nat) (p : project), s.d.projects[i]? = some p → p.name ≠ t.pName →
        (t.apply s).d.projects[i]? = some p) ∧
      (t.apply s).d.startTime = s.d.startTime ∧
      (t.apply s).d.done = s.d.done ∧
      (t.apply s).d.timestamp = s.d.timestamp ∧
      (t.apply s).d.link = s.d.link := by
  refine ⟨?_, startTime_apply s t, done_apply s t, timestamp_apply s t, link_apply s t⟩
  intro i p hi hne
  rw [projects_apply]
  exact getElem?_updateOrAppend_of_ne hi hne

/-! ### The attachment ids of a render -/

set_option maxRecDepth 100000 in
/-- C19, the code at the failing input: after transitions for 43 distinct
names and markDone, the render carries the ids 0, ..., 42 of the projects
and then the id 42 of the summary line, so the project with id 42 and the
summary line share their attachment id. -/
theorem C19_summary_id_collides_with_project_42 :
    ((markDone (runTransitions (Sys.fresh 0)
        ((List.range 43).map fun i => Transition.startBuilding ("p" ++ Nat.repr i) 0))).d.blocks
          asciiTables (fun _ => 0)).map Attachment.ID
        = (List.range 43).map Int.ofNat ++ [42] ∧
      ¬ (((markDone (runTransitions (Sys.fresh 0)
        ((List.range 43).map fun i => Transition.startBuilding ("p" ++ Nat.repr i) 0))).d.blocks
          asciiTables (fun _ => 0)).map Attachment.ID).Nodup := by
  decide

end DeployNotifier
